import Mathlib

/-!
# pOverlay: the XP-bar capture engine (`CaptureSystem`)

A shallow embedding of `src/CaptureSystem.cpp` / `src/CaptureSystem.h`.

Modelling conventions.

* C++ `int` is `Int`.  The byte offset of a pixel, `(y * width + x) * 4`, is
  computed with 32-bit wrap-around (`wrapInt32`, `pixelIndex`).  The columns
  and the counters stay between 0 and `width + 4` and are not wrapped.
* A `BYTE` channel of an `RGBQUAD` is a `Nat`; the integer promotion
  `pixel.rgbRed - fillRed` is the subtraction of `Int`.
* `m_bitmapData` (a `BYTE*`) is `Option (Int → RGBQUAD)`: `none` is `nullptr`,
  `some bits` is a pointer, and `bits i` is the `RGBQUAD` found at byte offset
  `i * 4` from it (`reinterpret_cast<RGBQUAD*>(m_bitmapData + i * 4)`).
* Every function that forms a pixel pointer also returns the list of the
  pixel indices it formed a pointer to, in program order (`reads`), so that
  statements about which pixels are read can be made about the same
  definition that computes the result.
* A `float` is the rational it denotes; every `float` operation of line 294
  (the two conversions from `int`, the product, the quotient) rounds to the
  nearest binary32 value, ties to even (`roundFloat`).
* Win32 calls (`CreateDIBSection`, `BitBlt`, `GetDC`, `CreateCompatibleDC`,
  thread creation) are parameters.
* The capture thread is run over a list of `Tick`s, one per loop iteration,
  which say what its surroundings did during the iteration (the outcome of
  `BitBlt`, the time taken, a `StopCapture` in another thread).  Time points
  are rationals, in milliseconds; `sleep_until` is represented by the deadline
  it is given and by the clock reading at which it returns.
-/

namespace POverlay

/-! ## Data model -/

/-- Win32 `RGBQUAD` (field order as in `wingdi.h`); each field is a `BYTE`. -/
structure RGBQUAD where
  rgbBlue : Nat
  rgbGreen : Nat
  rgbRed : Nat
  rgbReserved : Nat
deriving DecidableEq, Repr

/-- Win32 `RECT`; each field is a `LONG`. -/
structure RECT where
  left : Int
  top : Int
  right : Int
  bottom : Int
deriving DecidableEq, Repr

/-- The `std::thread` object owned by `m_captureThread`. -/
structure Thread where
  id : Nat
  joinable : Bool
deriving DecidableEq, Repr

/-- The data members of `class CaptureSystem` (`CaptureSystem.h`, lines 41-53).
Handles (`HWND`, `HDC`, `HBITMAP`) are numbers, `0` being the null handle. -/
structure CaptureSystem where
  m_overlayWindow : Nat
  m_captureRegion : RECT
  m_screenDC : Nat
  m_memoryDC : Nat
  m_captureBitmap : Nat
  m_bitmapData : Option (Int → RGBQUAD)
  m_isCapturing : Bool
  m_captureThread : Option Thread

/-! ## Pixel classifier (`CaptureSystem.cpp`, lines 135-184 and 207-218) -/

/-- `CaptureSystem::IsFilledPixel`: the XP fill colour `#2D67E2`, tolerance 20. -/
def IsFilledPixel (pixel : RGBQUAD) : Bool :=
  let fillRed : Int := 0x2D
  let fillGreen : Int := 0x67
  let fillBlue : Int := 0xE2
  let tolerance : Int := 20
  decide (|(pixel.rgbRed : Int) - fillRed| ≤ tolerance) &&
    decide (|(pixel.rgbGreen : Int) - fillGreen| ≤ tolerance) &&
    decide (|(pixel.rgbBlue : Int) - fillBlue| ≤ tolerance)

/-- `CaptureSystem::IsMarkerPixel`: regular marker `#99A6C0` or filled marker
`#9BB0ED`, tolerance 12. -/
def IsMarkerPixel (pixel : RGBQUAD) : Bool :=
  let markerRed : Int := 0x99
  let markerGreen : Int := 0xA6
  let markerBlue : Int := 0xC0
  let filledMarkerRed : Int := 0x9B
  let filledMarkerGreen : Int := 0xB0
  let filledMarkerBlue : Int := 0xED
  let tolerance : Int := 12
  let isRegularMarker : Bool :=
    decide (|(pixel.rgbRed : Int) - markerRed| ≤ tolerance) &&
      decide (|(pixel.rgbGreen : Int) - markerGreen| ≤ tolerance) &&
      decide (|(pixel.rgbBlue : Int) - markerBlue| ≤ tolerance)
  let isFilledMarker : Bool :=
    decide (|(pixel.rgbRed : Int) - filledMarkerRed| ≤ tolerance) &&
      decide (|(pixel.rgbGreen : Int) - filledMarkerGreen| ≤ tolerance) &&
      decide (|(pixel.rgbBlue : Int) - filledMarkerBlue| ≤ tolerance)
  isRegularMarker || isFilledMarker

/-- `CaptureSystem::IsFilledMarkerPixel`: filled marker `#9BB0ED`, tolerance 12. -/
def IsFilledMarkerPixel (pixel : RGBQUAD) : Bool :=
  let filledMarkerRed : Int := 0x9B
  let filledMarkerGreen : Int := 0xB0
  let filledMarkerBlue : Int := 0xED
  let tolerance : Int := 12
  decide (|(pixel.rgbRed : Int) - filledMarkerRed| ≤ tolerance) &&
    decide (|(pixel.rgbGreen : Int) - filledMarkerGreen| ≤ tolerance) &&
    decide (|(pixel.rgbBlue : Int) - filledMarkerBlue| ≤ tolerance)

/-- `CaptureSystem::IsBackgroundPixel`: background `#002240`, tolerance 8. -/
def IsBackgroundPixel (pixel : RGBQUAD) : Bool :=
  let bgRed : Int := 0x00
  let bgGreen : Int := 0x22
  let bgBlue : Int := 0x40
  let tolerance : Int := 8
  decide (|(pixel.rgbRed : Int) - bgRed| ≤ tolerance) &&
    decide (|(pixel.rgbGreen : Int) - bgGreen| ≤ tolerance) &&
    decide (|(pixel.rgbBlue : Int) - bgBlue| ≤ tolerance)

/-! ### The classifier as the specification words it -/

/-- A reference colour of the specification's table, as (R, G, B). -/
structure RefColour where
  r : Nat
  g : Nat
  b : Nat
deriving DecidableEq, Repr

/-- Absolute difference of two channel values. -/
def channelDiff (a b : Nat) : Nat := (a - b) + (b - a)

/-- The specification's distance: "max of per-channel absolute differences". -/
def chebyshev (pixel : RGBQUAD) (ref : RefColour) : Nat :=
  max (channelDiff pixel.rgbRed ref.r)
    (max (channelDiff pixel.rgbGreen ref.g) (channelDiff pixel.rgbBlue ref.b))

/-- The specification's matching rule: "pixel matches if ALL three channel
differences are within tolerance". -/
def withinTolerance (pixel : RGBQUAD) (ref : RefColour) (tol : Nat) : Prop :=
  channelDiff pixel.rgbRed ref.r ≤ tol ∧ channelDiff pixel.rgbGreen ref.g ≤ tol ∧
    channelDiff pixel.rgbBlue ref.b ≤ tol

instance (pixel : RGBQUAD) (ref : RefColour) (tol : Nat) :
    Decidable (withinTolerance pixel ref tol) := by
  unfold withinTolerance; infer_instance

/-- Filled row of the specification's table. -/
def refFilled : RefColour := ⟨0x2D, 0x67, 0xE2⟩
/-- Marker (unfilled tick) row of the specification's table. -/
def refMarker : RefColour := ⟨0x99, 0xA6, 0xC0⟩
/-- FilledMarker (filled tick) row of the specification's table. -/
def refFilledMarker : RefColour := ⟨0x9B, 0xB0, 0xED⟩
/-- Background row of the specification's table. -/
def refBackground : RefColour := ⟨0x00, 0x22, 0x40⟩

/-- The pixel whose colour is exactly a reference colour. -/
def RefColour.toPixel (ref : RefColour) (reserved : Nat) : RGBQUAD :=
  { rgbBlue := ref.b, rgbGreen := ref.g, rgbRed := ref.r, rgbReserved := reserved }

/-! ## Pixel addressing (`CaptureSystem.cpp`, lines 197, 238, 253, 259, 267) -/

/-- The value a 32-bit `int` holds after an operation whose exact result is
`n`: two's complement wrap-around. -/
def wrapInt32 (n : Int) : Int :=
  (n + 2147483648) % 4294967296 - 2147483648

/-- The pixel that `m_bitmapData + (y * width + x) * 4` addresses, as a pixel
index relative to `m_bitmapData` (the byte offset divided by 4; a negative
index is a pixel before the buffer).  The product `y * width`, the sum and the
product by 4 are `int` operations. -/
def pixelIndex (y width x : Int) : Int :=
  wrapInt32 (wrapInt32 (wrapInt32 (y * width) + x) * 4) / 4

/-! ## Tick detector (`CaptureSystem.cpp`, lines 186-205) -/

/-- The loop `for (int i = 0; i < verticalBarWidth; i++)` of
`IsVerticalBarSequence`, entered at `i` with `n = verticalBarWidth - i`
iterations left.  The result is the value the function returns and the pixel
indices it read. -/
def IsVerticalBarSequenceLoop (bits : Int → RGBQUAD) (m_captureRegion : RECT) (x y : Int) :
    Nat → Int → Bool × List Int
  | 0, _ => (true, [])
  | n + 1, i =>
    if x + i ≥ m_captureRegion.right - m_captureRegion.left then
      (false, [])
    else
      let idx := pixelIndex y (m_captureRegion.right - m_captureRegion.left) (x + i)
      if !IsMarkerPixel (bits idx) then
        (false, [idx])
      else
        let r := IsVerticalBarSequenceLoop bits m_captureRegion x y n (i + 1)
        (r.1, idx :: r.2)

/-- `CaptureSystem::IsVerticalBarSequence(x, y)` on a non-null `m_bitmapData`
(`bits`): the returned value and the pixel indices read.  The local
`tolerance` of line 188 is not used by the function. -/
def IsVerticalBarSequence (bits : Int → RGBQUAD) (m_captureRegion : RECT) (x y : Int) :
    Bool × List Int :=
  let verticalBarWidth : Nat := 4
  IsVerticalBarSequenceLoop bits m_captureRegion x y verticalBarWidth 0

/-! ## Scanline analyser (`CaptureSystem.cpp`, lines 220-298) -/

/-- The local variables of the scan loop of `AnalyzeRegion` (`x`,
`filledPixels`, `totalPixels`) and the pixel indices read so far. -/
structure ScanState where
  x : Int
  filledPixels : Int
  totalPixels : Int
  reads : List Int
deriving DecidableEq, Repr

/-- The loop `for (int i = 0; i < 4; i++)` of lines 265-272 (with its `break`),
entered at `i` with `n = 4 - i` iterations left: the final `isMarkerFilled` and
the pixel indices read. -/
def markerFilledLoop (bits : Int → RGBQUAD) (width sampleY x : Int) :
    Nat → Int → Bool × List Int
  | 0, _ => (false, [])
  | n + 1, i =>
    let idx := pixelIndex sampleY width (x + i)
    if IsFilledMarkerPixel (bits idx) then
      (true, [idx])
    else
      let r := markerFilledLoop bits width sampleY x n (i + 1)
      (r.1, idx :: r.2)

/-- One iteration of the scan loop of `AnalyzeRegion` (lines 237-289) followed
by the loop's `x++`; `width` is the local of line 223. -/
def scanBody (bits : Int → RGBQUAD) (m_captureRegion : RECT) (sampleY : Int)
    (st : ScanState) : ScanState :=
  let width := m_captureRegion.right - m_captureRegion.left
  let x := st.x
  let idx := pixelIndex sampleY width x
  let pixel := bits idx
  if !IsFilledPixel pixel && !IsBackgroundPixel pixel && !IsMarkerPixel pixel then
    { st with x := x + 1, reads := st.reads ++ [idx] }
  else
    let bar := IsVerticalBarSequence bits m_captureRegion x sampleY
    if bar.1 then
      let left : Bool × List Int :=
        if x > 0 then
          (IsFilledPixel (bits (pixelIndex sampleY width (x - 1))), [pixelIndex sampleY width
              (x - 1)])
        else (false, [])
      let right : Bool × List Int :=
        if x + 4 < width then
          (IsFilledPixel (bits (pixelIndex sampleY width (x + 4))), [pixelIndex sampleY width
              (x + 4)])
        else (false, [])
      let marker := markerFilledLoop bits width sampleY x 4 0
      { x := x + 3 + 1
        filledPixels :=
          if (left.1 && right.1) || marker.1 then st.filledPixels + 4 else st.filledPixels
        totalPixels := st.totalPixels + 4
        reads := st.reads ++ [idx] ++ bar.2 ++ left.2 ++ right.2 ++ marker.2 }
    else
      { x := x + 1
        filledPixels := if IsFilledPixel pixel then st.filledPixels + 1 else st.filledPixels
        totalPixels := st.totalPixels + 1
        reads := st.reads ++ [idx] ++ bar.2 }

/-- The loop `for (int x = 0; x < width; x++)` of `AnalyzeRegion`, run from the
state `st` for at most `fuel` iterations: `none` when the fuel is used up
before the loop condition fails. -/
def scanLoop (bits : Int → RGBQUAD) (m_captureRegion : RECT) (sampleY : Int) :
    Nat → ScanState → Option ScanState
  | 0, st => if st.x < m_captureRegion.right - m_captureRegion.left then none else some st
  | fuel + 1, st =>
    if st.x < m_captureRegion.right - m_captureRegion.left then
      scanLoop bits m_captureRegion sampleY fuel (scanBody bits m_captureRegion sampleY st)
    else some st

/-- Lines 223-290 of `AnalyzeRegion` on a non-null buffer: `width`, `height`,
`sampleY`, the counters set to 0, and the scan loop, given `width` iterations
of fuel.  The result is the state in which the loop exits. -/
def scan (bits : Int → RGBQUAD) (m_captureRegion : RECT) : Option ScanState :=
  let width := m_captureRegion.right - m_captureRegion.left
  let height := m_captureRegion.bottom - m_captureRegion.top
  let sampleY := Int.tdiv height 2
  scanLoop bits m_captureRegion sampleY width.toNat
    { x := 0, filledPixels := 0, totalPixels := 0, reads := [] }

/-! ## Single-precision arithmetic (`float`, line 294) -/

/-- Rounding of a rational to the nearest integer, ties to the even integer. -/
def roundHalfEven (m : ℚ) : ℤ :=
  let f := ⌊m⌋
  if m - f < 1 / 2 then f
  else if 1 / 2 < m - f then f + 1
  else if f % 2 = 0 then f else f + 1

/-- The `float` (IEEE 754 binary32, round to nearest, ties to even) nearest to
the rational `q`: `q` is rounded to 24 significant bits.  The exponent range of
binary32 is not limited here: every value `AnalyzeRegion` forms is 0 or has a
magnitude between `100 / 2^31` and `100 * 2^31`, inside the normal range. -/
def roundFloat (q : ℚ) : ℚ :=
  if q = 0 then 0
  else
    let e := Int.log 2 |q|
    let ulp := (2 : ℚ) ^ (e - 23)
    (roundHalfEven (q / ulp) : ℚ) * ulp

/-- The value of `(filledPixels * 100.0f) / totalPixels` (line 294) for a
non-zero divisor: both `int` counters are converted to `float`, and the
product and the quotient are rounded to `float`. -/
def floatPercentage (filledPixels totalPixels : Int) : ℚ :=
  roundFloat (roundFloat (roundFloat (filledPixels : ℚ) * 100) /
    roundFloat (totalPixels : ℚ))

/-- The `float` division of line 294, whose divisor must not be zero: the
quotient of two `float`s, rounded to `float`. -/
def checkedDiv (a b : ℚ) : Option ℚ :=
  if b = 0 then none else some (roundFloat (a / b))

/-- What a call of `AnalyzeRegion` yields: the returned `float`, as the
rational it is, and the pixel indices read during the call. -/
structure Analysis where
  result : ℚ
  reads : List Int
deriving DecidableEq

/-- `CaptureSystem::AnalyzeRegion`.  `none` stands for a run that does not
return a value (scan out of fuel, or a division by zero).  Line 294 is
`(filledPixels * 100.0f) / totalPixels`: each counter is converted to `float`,
and the product and the quotient are `float` operations. -/
def AnalyzeRegion (s : CaptureSystem) : Option Analysis :=
  match s.m_bitmapData with
  | none => some { result := 0, reads := [] }
  | some bits =>
    let width := s.m_captureRegion.right - s.m_captureRegion.left
    let height := s.m_captureRegion.bottom - s.m_captureRegion.top
    if width ≤ 0 || height ≤ 0 then
      some { result := 0, reads := [] }
    else
      match scan bits s.m_captureRegion with
      | none => none
      | some st =>
        if st.totalPixels > 0 then
          (checkedDiv (roundFloat (roundFloat (st.filledPixels : ℚ) * 100))
            (roundFloat (st.totalPixels : ℚ))).map
            fun q => { result := q, reads := st.reads }
        else
          some { result := 0, reads := st.reads }

/-! ## Frame processing (`CaptureSystem.cpp`, lines 107-133) -/

/-- A message posted with `PostMessage`.  The `LPARAM` of `WM_USER_XP_UPDATE`
is the text of the percentage at two decimals; it is represented by the
percentage. -/
structure Message where
  hwnd : Nat
  msg : Nat
  wParam : Nat
  lParam : ℚ
deriving DecidableEq

/-- `WM_USER_XP_UPDATE` is `WM_USER + 1` (`CaptureSystem.h`, line 1), and
`WM_USER` is `0x0400` in `winuser.h`. -/
def WM_USER_XP_UPDATE : Nat := 0x0400 + 1

/-- The effect of `BitBlt` on the capture buffer: `some px` when the copy
succeeded and the buffer now holds `px`, `none` when it failed and the buffer
is unchanged.  A null buffer stays null. -/
def BitBlt (m_bitmapData : Option (Int → RGBQUAD)) (capture : Option (Int → RGBQUAD)) :
    Option (Int → RGBQUAD) :=
  match m_bitmapData, capture with
  | some _, some px => some px
  | data, _ => data

/-- `CaptureSystem::ProcessFrame`: the returned percentage, the session after
the call and the messages posted.  The value `BitBlt` returns is not
inspected by the code. -/
def ProcessFrame (s : CaptureSystem) (capture : Option (Int → RGBQUAD)) :
    Option (ℚ × CaptureSystem × List Message) :=
  let s1 := { s with m_bitmapData := BitBlt s.m_bitmapData capture }
  match AnalyzeRegion s1 with
  | none => none
  | some a =>
    some (a.result, s1,
      [{ hwnd := s1.m_overlayWindow, msg := WM_USER_XP_UPDATE, wParam := 0, lParam := a.result }])

/-! ## Session lifecycle (`CaptureSystem.cpp`, lines 55-81) -/

/-- The Win32 and runtime services `StartCapture` calls.
`CreateDIBSection hdc biWidth biHeight` yields the bitmap handle (`0` on
failure) and the value stored through `ppvBits`; `newThread` is the thread
object `std::make_unique<std::thread>` creates. -/
structure Win32 where
  CreateDIBSection : Nat → Int → Int → Nat × Option (Int → RGBQUAD)
  newThread : Thread

/-- `CaptureSystem::StartCapture(region)`: the returned value and the session
after the call. -/
def StartCapture (env : Win32) (s : CaptureSystem) (region : RECT) : Bool × CaptureSystem :=
  if s.m_isCapturing then (false, s)
  else
    let s1 := { s with m_captureRegion := region }
    let width := region.right - region.left
    let height := region.bottom - region.top
    let dib := env.CreateDIBSection s1.m_memoryDC width (-height)
    let s2 := { s1 with m_captureBitmap := dib.1, m_bitmapData := dib.2 }
    if s2.m_captureBitmap = 0 then (false, s2)
    else
      (true, { s2 with m_isCapturing := true, m_captureThread := some env.newThread })

/-! ## Session lifecycle, continued (`CaptureSystem.cpp`, lines 3-53 and 83-90) -/

/-- The constructor (lines 3-10): null handles, null buffer, `m_isCapturing`
false, no thread object.  `m_captureRegion` is not initialised by the
constructor; `garbage` is its indeterminate content. -/
def CaptureSystem.construct (garbage : RECT) : CaptureSystem :=
  { m_overlayWindow := 0, m_captureRegion := garbage, m_screenDC := 0, m_memoryDC := 0,
    m_captureBitmap := 0, m_bitmapData := none, m_isCapturing := false,
    m_captureThread := none }

/-- `CaptureSystem::SetupCaptureDC`; `getDC` is what `GetDC(nullptr)` returns and
`createCompatibleDC` what `CreateCompatibleDC` returns for a screen DC. -/
def SetupCaptureDC (getDC : Nat) (createCompatibleDC : Nat → Nat) (s : CaptureSystem) :
    Bool × CaptureSystem :=
  let s1 := { s with m_screenDC := getDC }
  if s1.m_screenDC = 0 then (false, s1)
  else
    let s2 := { s1 with m_memoryDC := createCompatibleDC s1.m_screenDC }
    if s2.m_memoryDC = 0 then (false, { s2 with m_screenDC := 0 })
    else (true, s2)

/-- `CaptureSystem::Initialize(overlayWindow)`. -/
def Initialize (getDC : Nat) (createCompatibleDC : Nat → Nat) (s : CaptureSystem)
    (overlayWindow : Nat) : Bool × CaptureSystem :=
  SetupCaptureDC getDC createCompatibleDC { s with m_overlayWindow := overlayWindow }

/-- `CaptureSystem::CleanupCaptureDC`: each non-null handle is released and set
to null. -/
def CleanupCaptureDC (s : CaptureSystem) : CaptureSystem :=
  let s1 := if s.m_captureBitmap ≠ 0 then { s with m_captureBitmap := 0 } else s
  let s2 := if s1.m_memoryDC ≠ 0 then { s1 with m_memoryDC := 0 } else s1
  if s2.m_screenDC ≠ 0 then { s2 with m_screenDC := 0 } else s2

/-- `CaptureSystem::StopCapture`, as the session is when the call returns: the
`join` of line 88 has returned, after which the thread object is no longer
joinable. -/
def StopCapture (s : CaptureSystem) : CaptureSystem :=
  if !s.m_isCapturing then s
  else
    let s1 := { s with m_isCapturing := false }
    match s1.m_captureThread with
    | some t =>
      if t.joinable then { s1 with m_captureThread := some { t with joinable := false } }
      else s1
    | none => s1

/-- The destructor (lines 12-15). -/
def CaptureSystem.destruct (s : CaptureSystem) : CaptureSystem :=
  CleanupCaptureDC (StopCapture s)

/-! ## Capture loop (`CaptureSystem.cpp`, lines 92-105; `CaptureSystem.h`, lines 55-57) -/

/-- `CAPTURE_FPS` (`CaptureSystem.h`, line 56). -/
def CAPTURE_FPS : Int := 4

/-- `FRAME_DURATION` (`CaptureSystem.h`, line 57), as a number of milliseconds:
`std::chrono::milliseconds(1000 / CAPTURE_FPS)`, an `int` division. -/
def FRAME_DURATION : Int := Int.tdiv 1000 CAPTURE_FPS

/-- What the surroundings of the capture thread do during one iteration of its
loop.  Times are in milliseconds.

* `capture`: the outcome of the `BitBlt` of this iteration (see `BitBlt`);
* `elapsed`: how long `ProcessFrame` took;
* `oversleep`: how long after the later of the deadline and the present
  `sleep_until` returned;
* `stopped`: `StopCapture`, running in another thread, stored `false` in
  `m_isCapturing` (line 86) before the loop condition was next read. -/
structure Tick where
  capture : Option (Int → RGBQUAD)
  elapsed : ℚ
  oversleep : ℚ
  stopped : Bool

/-- The capture thread after some iterations: the session, the local
`nextCapture`, the reading of `steady_clock`, the messages posted so far and
the deadlines passed to `sleep_until` so far (oldest first). -/
structure ThreadState where
  session : CaptureSystem
  nextCapture : ℚ
  now : ℚ
  posted : List Message
  deadlines : List ℚ

/-- The loop `while (m_isCapturing)` of `CaptureThread`, run over the
iterations described by `ticks`: it ends early when `m_isCapturing` is read as
false, and the result is the state reached when `ticks` is used up or the loop
has ended.  `none` stands for an iteration whose `ProcessFrame` does not
return. -/
def CaptureThreadLoop : List Tick → ThreadState → Option ThreadState
  | [], st => some st
  | tick :: rest, st =>
    if st.session.m_isCapturing then
      match ProcessFrame st.session tick.capture with
      | none => none
      | some r =>
        let nextCapture := st.nextCapture + (FRAME_DURATION : ℚ)
        CaptureThreadLoop rest
          { session := { r.2.1 with m_isCapturing := r.2.1.m_isCapturing && !tick.stopped }
            nextCapture := nextCapture
            now := max (st.now + tick.elapsed) nextCapture + tick.oversleep
            posted := st.posted ++ r.2.2
            deadlines := st.deadlines ++ [nextCapture] }
    else some st

/-- `CaptureSystem::CaptureThread`, started when `steady_clock::now()` reads
`t0`, over the iterations described by `ticks`. -/
def CaptureThread (t0 : ℚ) (ticks : List Tick) (s : CaptureSystem) : Option ThreadState :=
  CaptureThreadLoop ticks
    { session := s, nextCapture := t0, now := t0, posted := [], deadlines := [] }

/-! ## Auxiliary predicates used in the statements -/

/-- Some channel of `pixel` differs from the reference by exactly `d`. -/
def someChannelAt (pixel : RGBQUAD) (ref : RefColour) (d : Nat) : Prop :=
  channelDiff pixel.rgbRed ref.r = d ∨ channelDiff pixel.rgbGreen ref.g = d ∨
    channelDiff pixel.rgbBlue ref.b = d

/-- The pixel is none of Filled, Background, Marker (line 241). -/
def IsUnknownPixel (pixel : RGBQUAD) : Bool :=
  !IsFilledPixel pixel && !IsBackgroundPixel pixel && !IsMarkerPixel pixel

/-- The condition under which a detected tick run starting at column `x` is
credited as filled (lines 251-277). -/
def tickCredited (bits : Int → RGBQUAD) (m_captureRegion : RECT) (sampleY : Int)
    (x : Int) : Prop :=
  (0 < x ∧
    IsFilledPixel (bits (pixelIndex sampleY (m_captureRegion.right - m_captureRegion.left)
        (x - 1))) = true ∧
    x + 4 < m_captureRegion.right - m_captureRegion.left ∧
    IsFilledPixel (bits (pixelIndex sampleY (m_captureRegion.right - m_captureRegion.left)
        (x + 4))) = true) ∨
  ∃ i : Int, 0 ≤ i ∧ i < 4 ∧
    IsFilledMarkerPixel (bits (pixelIndex sampleY (m_captureRegion.right - m_captureRegion.left)
        (x + i))) = true

/-- The local `isRegularMarker` of `IsMarkerPixel` (lines 163-165): regular
marker `#99A6C0`, tolerance 12. -/
def isRegularMarker (pixel : RGBQUAD) : Bool :=
  let markerRed : Int := 0x99
  let markerGreen : Int := 0xA6
  let markerBlue : Int := 0xC0
  let tolerance : Int := 12
  decide (|(pixel.rgbRed : Int) - markerRed| ≤ tolerance) &&
    decide (|(pixel.rgbGreen : Int) - markerGreen| ≤ tolerance) &&
    decide (|(pixel.rgbBlue : Int) - markerBlue| ≤ tolerance)

/-- The classes of the specification's data model (`PixelClass`). -/
inductive PixelClass where
  | Background
  | Filled
  | Marker
  | FilledMarker
  | Unknown
deriving DecidableEq, Repr

/-- The test the code has for each class: `IsBackgroundPixel`, `IsFilledPixel`,
the regular-marker test inside `IsMarkerPixel`, `IsFilledMarkerPixel`; Unknown
has no test of its own. -/
def PixelClass.test : PixelClass → RGBQUAD → Bool
  | PixelClass.Background, pixel => IsBackgroundPixel pixel
  | PixelClass.Filled, pixel => IsFilledPixel pixel
  | PixelClass.Marker, pixel => isRegularMarker pixel
  | PixelClass.FilledMarker, pixel => IsFilledMarkerPixel pixel
  | PixelClass.Unknown, _ => false

/-- The specification's `classify` with the class tests tried in the order
`order`: the first class whose test passes, Unknown when none does. -/
def classifyIn (order : List PixelClass) (pixel : RGBQUAD) : PixelClass :=
  (order.find? fun c => c.test pixel).getD PixelClass.Unknown

/-- The number of columns `x` in `0 .. n-1` whose pixel on row `sampleY` is not
Unknown. -/
def barColumnsBelow (bits : Int → RGBQUAD) (m_captureRegion : RECT) (sampleY : Int)
    (n : Nat) : Nat :=
  ((List.range n).filter fun x : Nat =>
    !IsUnknownPixel
      (bits (pixelIndex sampleY (m_captureRegion.right - m_captureRegion.left) (x : Int)))).length

/-- The number of columns `x` in `0 .. width-1` whose pixel on row `height / 2`
is not Unknown. -/
def barColumns (bits : Int → RGBQUAD) (m_captureRegion : RECT) : Nat :=
  barColumnsBelow bits m_captureRegion ((m_captureRegion.bottom - m_captureRegion.top) / 2)
    (m_captureRegion.right - m_captureRegion.left).toNat

/-- An index of the buffer that lies on row `sampleY` of the region. -/
def onRow (m_captureRegion : RECT) (sampleY : Int) (idx : Int) : Prop :=
  ∃ c : Int, 0 ≤ c ∧ c < m_captureRegion.right - m_captureRegion.left ∧
    idx = pixelIndex sampleY (m_captureRegion.right - m_captureRegion.left) c

/-- The number of iterations the loop of `CaptureThread` runs over `ticks`,
when `m_isCapturing` reads `capturing` at the first test of the loop
condition: it runs until a tick in which `m_isCapturing` was set to false. -/
def loopIterations : List Tick → Bool → Nat
  | [], _ => 0
  | tick :: rest, capturing =>
    if capturing then 1 + loopIterations rest (!tick.stopped) else 0

/-! ## Concrete pixels, buffers and sessions used to instantiate the theorems -/

/-- The fill colour `#2D67E2`. -/
def pxFilled : RGBQUAD := refFilled.toPixel 0
/-- The regular marker colour `#99A6C0`. -/
def pxMarker : RGBQUAD := refMarker.toPixel 0
/-- The filled marker colour `#9BB0ED`. -/
def pxFilledMarker : RGBQUAD := refFilledMarker.toPixel 0
/-- The background colour `#002240`. -/
def pxBackground : RGBQUAD := refBackground.toPixel 0
/-- Black: passes none of the class tests. -/
def pxBlack : RGBQUAD := ⟨0, 0, 0, 0⟩

/-- A session with capture region `rc` and buffer `bits`, currently capturing. -/
def sessionOf (rc : RECT) (bits : Int → RGBQUAD) : CaptureSystem :=
  { m_overlayWindow := 1, m_captureRegion := rc, m_screenDC := 1, m_memoryDC := 2,
    m_captureBitmap := 3, m_bitmapData := some bits, m_isCapturing := true,
    m_captureThread := some ⟨1, true⟩ }

/-- A 9 x 3 buffer whose middle row (pixels 9..17) is five Filled pixels
followed by four regular Marker pixels; the other rows are black. -/
def scenarioBits9 : Int → RGBQUAD := fun i =>
  if 9 ≤ i ∧ i < 14 then pxFilled else if 14 ≤ i ∧ i < 18 then pxMarker else pxBlack

/-- The region of `scenarioBits9`. -/
def scenarioRegion9 : RECT := ⟨0, 0, 9, 3⟩

/-- A 10 x 3 buffer whose middle row (pixels 10..19) is five Filled pixels,
four regular Marker pixels and a black pixel; the other rows are black. -/
def scenarioBits10 : Int → RGBQUAD := fun i =>
  if 10 ≤ i ∧ i < 15 then pxFilled else if 15 ≤ i ∧ i < 19 then pxMarker else pxBlack

/-- The region of `scenarioBits10`. -/
def scenarioRegion10 : RECT := ⟨0, 0, 10, 3⟩

/-- A buffer whose pixels are all Filled. -/
def allFilledBits : Int → RGBQUAD := fun _ => pxFilled

/-- A buffer whose pixels are all black. -/
def allBlackBits : Int → RGBQUAD := fun _ => pxBlack

/-- A region 4 columns wide and `2^28` rows high: `2^30` pixels. -/
def tallRegion : RECT := ⟨0, 0, 4, 268435456⟩

/-- A 4 x 1 buffer of filled marker pixels. -/
def filledMarkerBits : Int → RGBQUAD := fun _ => pxFilledMarker

/-- An environment in which `CreateDIBSection` succeeds with a black buffer. -/
def envOk : Win32 :=
  { CreateDIBSection := fun _ _ _ => (7, some fun _ => pxBlack), newThread := ⟨2, true⟩ }

/-- An environment in which `CreateDIBSection` succeeds for a positive
`biWidth` and a non-zero `biHeight` (a positive `biHeight` asks for a bottom-up
bitmap, a negative one for a top-down bitmap) and fails otherwise. -/
def envDib : Win32 :=
  { CreateDIBSection := fun _ biWidth biHeight =>
      if 0 < biWidth ∧ biHeight ≠ 0 then (7, some fun _ => pxBlack) else (0, none)
    newThread := ⟨2, true⟩ }

/-- An idle, initialised session. -/
def idleSession : CaptureSystem :=
  { m_overlayWindow := 1, m_captureRegion := ⟨0, 0, 0, 0⟩, m_screenDC := 1, m_memoryDC := 2,
    m_captureBitmap := 0, m_bitmapData := none, m_isCapturing := false,
    m_captureThread := none }

/-- An iteration whose capture fails. -/
def tickFail : Tick := { capture := none, elapsed := 3, oversleep := 0, stopped := false }

/-- An iteration whose capture succeeds with an all-Filled frame. -/
def tickOk : Tick :=
  { capture := some fun _ => pxFilled, elapsed := 400, oversleep := 1, stopped := false }

/-! # Lemmas -/

/-! ## Classifier lemmas -/

theorem abs_sub_le_iff_channelDiff (a c t : Nat) :
    |(a : Int) - (c : Int)| ≤ (t : Int) ↔ channelDiff a c ≤ t := by
  unfold channelDiff
  rw [abs_le]
  omega

theorem IsFilledPixel_iff (p : RGBQUAD) :
    IsFilledPixel p = true ↔ withinTolerance p refFilled 20 := by
  have h1 := abs_sub_le_iff_channelDiff p.rgbRed 0x2D 20
  have h2 := abs_sub_le_iff_channelDiff p.rgbGreen 0x67 20
  have h3 := abs_sub_le_iff_channelDiff p.rgbBlue 0xE2 20
  simp only [Nat.cast_ofNat] at h1 h2 h3
  simp only [IsFilledPixel, withinTolerance, refFilled, Bool.and_eq_true, decide_eq_true_eq,
    h1, h2, h3, and_assoc]

theorem IsBackgroundPixel_iff (p : RGBQUAD) :
    IsBackgroundPixel p = true ↔ withinTolerance p refBackground 8 := by
  have h1 := abs_sub_le_iff_channelDiff p.rgbRed 0x00 8
  rw [Nat.cast_zero] at h1
  have h2 := abs_sub_le_iff_channelDiff p.rgbGreen 0x22 8
  have h3 := abs_sub_le_iff_channelDiff p.rgbBlue 0x40 8
  simp only [Nat.cast_ofNat] at h1 h2 h3
  simp only [IsBackgroundPixel, withinTolerance, refBackground, Bool.and_eq_true,
    decide_eq_true_eq, h1, h2, h3, and_assoc]

theorem IsFilledMarkerPixel_iff (p : RGBQUAD) :
    IsFilledMarkerPixel p = true ↔ withinTolerance p refFilledMarker 12 := by
  have h1 := abs_sub_le_iff_channelDiff p.rgbRed 0x9B 12
  have h2 := abs_sub_le_iff_channelDiff p.rgbGreen 0xB0 12
  have h3 := abs_sub_le_iff_channelDiff p.rgbBlue 0xED 12
  simp only [Nat.cast_ofNat] at h1 h2 h3
  simp only [IsFilledMarkerPixel, withinTolerance, refFilledMarker, Bool.and_eq_true,
    decide_eq_true_eq, h1, h2, h3, and_assoc]

theorem IsMarkerPixel_iff (p : RGBQUAD) :
    IsMarkerPixel p = true ↔
      withinTolerance p refMarker 12 ∨ withinTolerance p refFilledMarker 12 := by
  have h1 := abs_sub_le_iff_channelDiff p.rgbRed 0x99 12
  have h2 := abs_sub_le_iff_channelDiff p.rgbGreen 0xA6 12
  have h3 := abs_sub_le_iff_channelDiff p.rgbBlue 0xC0 12
  have h4 := abs_sub_le_iff_channelDiff p.rgbRed 0x9B 12
  have h5 := abs_sub_le_iff_channelDiff p.rgbGreen 0xB0 12
  have h6 := abs_sub_le_iff_channelDiff p.rgbBlue 0xED 12
  simp only [Nat.cast_ofNat] at h1 h2 h3 h4 h5 h6
  simp only [IsMarkerPixel, withinTolerance, refMarker, refFilledMarker, Bool.or_eq_true,
    Bool.and_eq_true, decide_eq_true_eq, h1, h2, h3, h4, h5, h6, and_assoc]

theorem withinTolerance_iff_chebyshev (p : RGBQUAD) (ref : RefColour) (tol : Nat) :
    withinTolerance p ref tol ↔ chebyshev p ref ≤ tol := by
  simp only [withinTolerance, chebyshev, max_le_iff]

theorem not_within_of_someChannelAt {p : RGBQUAD} {ref : RefColour} {tol : Nat}
    (h : someChannelAt p ref (tol + 1)) : ¬ withinTolerance p ref tol := by
  unfold someChannelAt at h
  unfold withinTolerance
  omega

/-! ## Tick detector lemmas -/

theorem IsVerticalBarSequence_eq_true_iff (bits : Int → RGBQUAD) (rc : RECT) (x y : Int) :
    (IsVerticalBarSequence bits rc x y).1 = true ↔
      x + 3 < rc.right - rc.left ∧
        IsMarkerPixel (bits (pixelIndex y (rc.right - rc.left) x)) = true ∧
        IsMarkerPixel (bits (pixelIndex y (rc.right - rc.left) (x + 1))) = true ∧
        IsMarkerPixel (bits (pixelIndex y (rc.right - rc.left) (x + 2))) = true ∧
        IsMarkerPixel (bits (pixelIndex y (rc.right - rc.left) (x + 3))) = true := by
  simp only [IsVerticalBarSequence, IsVerticalBarSequenceLoop, add_zero, zero_add, ge_iff_le,
    Bool.not_eq_true', show (1 : Int) + 1 = 2 by rfl, show (2 : Int) + 1 = 3 by rfl]
  split_ifs <;> simp_all <;> omega

theorem IsVerticalBarSequenceLoop_reads (bits : Int → RGBQUAD) (rc : RECT) (x y : Int) :
    ∀ (n : Nat) (i idx : Int), idx ∈ (IsVerticalBarSequenceLoop bits rc x y n i).2 →
      ∃ c, x + i ≤ c ∧ c < x + i + n ∧ c < rc.right - rc.left ∧
        idx = pixelIndex y (rc.right - rc.left) c := by
  intro n
  induction n with
  | zero => intro i idx h; simp [IsVerticalBarSequenceLoop] at h
  | succ n ih =>
    intro i idx h
    simp only [IsVerticalBarSequenceLoop] at h
    split_ifs at h with h1 h2
    · simp at h
    · simp only [List.mem_singleton] at h
      exact ⟨x + i, le_refl _, by push_cast; omega, by omega, h⟩
    · simp only [List.mem_cons] at h
      rcases h with h | h
      · exact ⟨x + i, le_refl _, by push_cast; omega, by omega, h⟩
      · obtain ⟨c, hc1, hc2, hc3, hc4⟩ := ih (i + 1) idx h
        exact ⟨c, by omega, by push_cast; omega, hc3, hc4⟩

/-! ## Scan step lemmas -/

theorem markerFilledLoop_eq_true_iff (bits : Int → RGBQUAD) (width sampleY x : Int) :
    (markerFilledLoop bits width sampleY x 4 0).1 = true ↔
      IsFilledMarkerPixel (bits (pixelIndex sampleY width x)) = true ∨
        IsFilledMarkerPixel (bits (pixelIndex sampleY width (x + 1))) = true ∨
        IsFilledMarkerPixel (bits (pixelIndex sampleY width (x + 2))) = true ∨
        IsFilledMarkerPixel (bits (pixelIndex sampleY width (x + 3))) = true := by
  simp only [markerFilledLoop, add_zero, zero_add, show (1 : Int) + 1 = 2 by rfl,
    show (2 : Int) + 1 = 3 by rfl]
  split_ifs <;> simp_all

theorem scanBody_unknown (bits : Int → RGBQUAD) (rc : RECT) (sampleY : Int) (st : ScanState)
    (h : IsUnknownPixel (bits (pixelIndex sampleY (rc.right - rc.left) st.x)) = true) :
    (scanBody bits rc sampleY st).x = st.x + 1 ∧
      (scanBody bits rc sampleY st).filledPixels = st.filledPixels ∧
      (scanBody bits rc sampleY st).totalPixels = st.totalPixels := by
  unfold IsUnknownPixel at h
  simp only [scanBody, h, if_true, and_self]

theorem scanBody_tick (bits : Int → RGBQUAD) (rc : RECT) (sampleY : Int) (st : ScanState)
    (h : (IsVerticalBarSequence bits rc st.x sampleY).1 = true) :
    (scanBody bits rc sampleY st).x = st.x + 4 ∧
      (scanBody bits rc sampleY st).totalPixels = st.totalPixels + 4 ∧
      (scanBody bits rc sampleY st).filledPixels =
        if ((decide (st.x > 0) &&
              IsFilledPixel (bits (pixelIndex sampleY (rc.right - rc.left) (st.x - 1)))) &&
            (decide (st.x + 4 < rc.right - rc.left) &&
              IsFilledPixel (bits (pixelIndex sampleY (rc.right - rc.left) (st.x + 4))))) ||
            (markerFilledLoop bits (rc.right - rc.left) sampleY st.x 4 0).1
        then st.filledPixels + 4 else st.filledPixels := by
  have hm := ((IsVerticalBarSequence_eq_true_iff bits rc st.x sampleY).1 h).2.1
  have hu : IsUnknownPixel (bits (pixelIndex sampleY (rc.right - rc.left) st.x)) = false := by
    simp [IsUnknownPixel, hm]
  unfold IsUnknownPixel at hu
  simp only [scanBody, hu, h, if_true, Bool.false_eq_true, if_false]
  refine ⟨by omega, trivial, ?_⟩
  by_cases h1 : st.x > 0 <;> by_cases h2 : st.x + 4 < rc.right - rc.left <;> simp [h1, h2]

theorem scanBody_plain (bits : Int → RGBQUAD) (rc : RECT) (sampleY : Int) (st : ScanState)
    (hu : IsUnknownPixel (bits (pixelIndex sampleY (rc.right - rc.left) st.x)) = false)
    (h : (IsVerticalBarSequence bits rc st.x sampleY).1 = false) :
    (scanBody bits rc sampleY st).x = st.x + 1 ∧
      (scanBody bits rc sampleY st).totalPixels = st.totalPixels + 1 ∧
      (scanBody bits rc sampleY st).filledPixels =
        if IsFilledPixel (bits (pixelIndex sampleY (rc.right - rc.left) st.x)) = true
        then st.filledPixels + 1 else st.filledPixels := by
  unfold IsUnknownPixel at hu
  simp only [scanBody, hu, h, Bool.false_eq_true, if_false, and_self]

theorem markerFilledLoop_eq_true_iff_exists (bits : Int → RGBQUAD) (width sampleY x : Int) :
    (markerFilledLoop bits width sampleY x 4 0).1 = true ↔
      ∃ i : Int, 0 ≤ i ∧ i < 4 ∧
        IsFilledMarkerPixel (bits (pixelIndex sampleY width (x + i))) = true := by
  rw [markerFilledLoop_eq_true_iff]
  constructor
  · rintro (hi | hi | hi | hi)
    · exact ⟨0, by decide, by decide, by simpa using hi⟩
    · exact ⟨1, by decide, by decide, hi⟩
    · exact ⟨2, by decide, by decide, hi⟩
    · exact ⟨3, by decide, by decide, hi⟩
  · rintro ⟨i, hi0, hi4, hi⟩
    have hi' : i = 0 ∨ i = 1 ∨ i = 2 ∨ i = 3 := by omega
    rcases hi' with rfl | rfl | rfl | rfl
    · exact Or.inl (by simpa using hi)
    · exact Or.inr (Or.inl hi)
    · exact Or.inr (Or.inr (Or.inl hi))
    · exact Or.inr (Or.inr (Or.inr hi))

/-- The fill decision of a detected tick run, as a case split. -/
theorem scanBody_tick_filled (bits : Int → RGBQUAD) (rc : RECT) (sampleY : Int)
    (st : ScanState) (h : (IsVerticalBarSequence bits rc st.x sampleY).1 = true) :
    (tickCredited bits rc sampleY st.x →
      (scanBody bits rc sampleY st).filledPixels = st.filledPixels + 4) ∧
    (¬ tickCredited bits rc sampleY st.x →
      (scanBody bits rc sampleY st).filledPixels = st.filledPixels) := by
  obtain ⟨-, -, e3⟩ := scanBody_tick bits rc sampleY st h
  have hm := markerFilledLoop_eq_true_iff_exists bits (rc.right - rc.left) sampleY st.x
  rw [e3]
  unfold tickCredited
  rw [← hm]
  split_ifs with hc
  · exact ⟨fun _ => rfl, fun hn => absurd (by
      simp only [Bool.or_eq_true, Bool.and_eq_true, decide_eq_true_eq, gt_iff_lt] at hc
      tauto) hn⟩
  · refine ⟨fun hcond => absurd ?_ hc, fun _ => rfl⟩
    simp only [Bool.or_eq_true, Bool.and_eq_true, decide_eq_true_eq, gt_iff_lt]
    tauto

/-! ## Scan loop lemmas -/

theorem scanBody_cases (bits : Int → RGBQUAD) (rc : RECT) (sampleY : Int) (st : ScanState) :
    IsUnknownPixel (bits (pixelIndex sampleY (rc.right - rc.left) st.x)) = true ∨
      (IsVerticalBarSequence bits rc st.x sampleY).1 = true ∨
      (IsUnknownPixel (bits (pixelIndex sampleY (rc.right - rc.left) st.x)) = false ∧
        (IsVerticalBarSequence bits rc st.x sampleY).1 = false) := by
  cases IsUnknownPixel (bits (pixelIndex sampleY (rc.right - rc.left) st.x)) <;>
    cases (IsVerticalBarSequence bits rc st.x sampleY).1 <;> simp

theorem scanBody_x_gt (bits : Int → RGBQUAD) (rc : RECT) (sampleY : Int) (st : ScanState) :
    st.x < (scanBody bits rc sampleY st).x := by
  rcases scanBody_cases bits rc sampleY st with h | h | ⟨hu, h⟩
  · rw [(scanBody_unknown bits rc sampleY st h).1]; omega
  · rw [(scanBody_tick bits rc sampleY st h).1]; omega
  · rw [(scanBody_plain bits rc sampleY st hu h).1]; omega

/-- Invariant rule for the scan loop: from a state satisfying `P`, with fuel
at least the number of columns left, the loop exits, in a state satisfying `P`
in which the loop condition fails. -/
theorem scanLoop_invariant (bits : Int → RGBQUAD) (rc : RECT) (sampleY : Int)
    (P : ScanState → Prop)
    (hstep : ∀ st, st.x < rc.right - rc.left → P st → P (scanBody bits rc sampleY st)) :
    ∀ (fuel : Nat) (st : ScanState), rc.right - rc.left - st.x ≤ fuel → P st →
      ∃ st', scanLoop bits rc sampleY fuel st = some st' ∧ P st' ∧
        rc.right - rc.left ≤ st'.x := by
  intro fuel
  induction fuel with
  | zero =>
    intro st hf hP
    have hx : ¬ st.x < rc.right - rc.left := by push_cast at hf; omega
    exact ⟨st, by simp [scanLoop, hx], hP, by omega⟩
  | succ n ih =>
    intro st hf hP
    by_cases hx : st.x < rc.right - rc.left
    · have hgt := scanBody_x_gt bits rc sampleY st
      obtain ⟨st', h1, h2, h3⟩ :=
        ih (scanBody bits rc sampleY st) (by push_cast at hf; omega) (hstep st hx hP)
      exact ⟨st', by simp [scanLoop, hx, h1], h2, h3⟩
    · exact ⟨st, by simp [scanLoop, hx], hP, by omega⟩

/-- The scan started by `AnalyzeRegion` exits, and an invariant of the loop
body that holds of the initial counters holds of the final ones. -/
theorem scan_invariant (bits : Int → RGBQUAD) (rc : RECT) (P : ScanState → Prop)
    (h0 : P { x := 0, filledPixels := 0, totalPixels := 0, reads := [] })
    (hstep : ∀ st, st.x < rc.right - rc.left → P st →
      P (scanBody bits rc (Int.tdiv (rc.bottom - rc.top) 2) st)) :
    ∃ st', scan bits rc = some st' ∧ P st' ∧ rc.right - rc.left ≤ st'.x := by
  unfold scan
  exact scanLoop_invariant bits rc _ P hstep _ _ (by simp) h0

/-- The counters stay ordered: `0 ≤ filledPixels ≤ totalPixels ≤ x ≤ width`. -/
theorem scanBody_counters (bits : Int → RGBQUAD) (rc : RECT) (sampleY : Int) (st : ScanState)
    (hx : st.x < rc.right - rc.left)
    (h : 0 ≤ st.filledPixels ∧ st.filledPixels ≤ st.totalPixels ∧ st.totalPixels ≤ st.x ∧
      st.x ≤ rc.right - rc.left) :
    0 ≤ (scanBody bits rc sampleY st).filledPixels ∧
      (scanBody bits rc sampleY st).filledPixels ≤ (scanBody bits rc sampleY st).totalPixels ∧
      (scanBody bits rc sampleY st).totalPixels ≤ (scanBody bits rc sampleY st).x ∧
      (scanBody bits rc sampleY st).x ≤ rc.right - rc.left := by
  rcases scanBody_cases bits rc sampleY st with hc | hc | ⟨hu, hc⟩
  · obtain ⟨e1, e2, e3⟩ := scanBody_unknown bits rc sampleY st hc
    rw [e1, e2, e3]; omega
  · obtain ⟨e1, e2, e3⟩ := scanBody_tick bits rc sampleY st hc
    have hw := ((IsVerticalBarSequence_eq_true_iff bits rc st.x sampleY).1 hc).1
    rw [e1, e2, e3]
    split_ifs <;> omega
  · obtain ⟨e1, e2, e3⟩ := scanBody_plain bits rc sampleY st hu hc
    rw [e1, e2, e3]
    split_ifs <;> omega

theorem scan_counters (bits : Int → RGBQUAD) (rc : RECT) :
    ∃ st, scan bits rc = some st ∧ 0 ≤ st.filledPixels ∧
      st.filledPixels ≤ st.totalPixels ∧
      (0 < rc.right - rc.left → st.totalPixels ≤ rc.right - rc.left) ∧
      (rc.right - rc.left ≤ 0 → st.totalPixels = 0) := by
  by_cases hw : 0 ≤ rc.right - rc.left
  · obtain ⟨st, h1, ⟨h2, h3, h4, h5⟩, h6⟩ := scan_invariant bits rc
      (fun st => 0 ≤ st.filledPixels ∧ st.filledPixels ≤ st.totalPixels ∧
        st.totalPixels ≤ st.x ∧ st.x ≤ rc.right - rc.left)
      ⟨le_refl _, le_refl _, le_refl _, hw⟩
      (fun st hx hP => scanBody_counters bits rc _ st hx hP)
    exact ⟨st, h1, h2, h3, fun _ => by omega, fun _ => by omega⟩
  · obtain ⟨st, h1, ⟨h2, h3, _⟩, _⟩ := scan_invariant bits rc
      (fun st => st.filledPixels = 0 ∧ st.totalPixels = 0 ∧ 0 ≤ st.x) ⟨rfl, rfl, le_refl _⟩
      (fun st hx hP => by omega)
    exact ⟨st, h1, by omega, by omega, fun _ => by omega, fun _ => h3⟩

/-! ## Facts about the colour windows used by the scan -/

theorem IsBackgroundPixel_not_filled {p : RGBQUAD} (h : IsBackgroundPixel p = true) :
    IsFilledPixel p = false := by
  refine Bool.eq_false_iff.2 fun hf => ?_
  have h1 := (IsBackgroundPixel_iff p).1 h
  have h2 := (IsFilledPixel_iff p).1 hf
  simp only [withinTolerance, refBackground, refFilled, channelDiff] at h1 h2
  omega

theorem IsBackgroundPixel_not_marker {p : RGBQUAD} (h : IsBackgroundPixel p = true) :
    IsMarkerPixel p = false := by
  refine Bool.eq_false_iff.2 fun hf => ?_
  have h1 := (IsBackgroundPixel_iff p).1 h
  have h2 := (IsMarkerPixel_iff p).1 hf
  simp only [withinTolerance, refBackground, refMarker, refFilledMarker, channelDiff] at h1 h2
  omega

theorem IsFilledPixel_not_marker {p : RGBQUAD} (h : IsFilledPixel p = true) :
    IsMarkerPixel p = false := by
  refine Bool.eq_false_iff.2 fun hf => ?_
  have h1 := (IsFilledPixel_iff p).1 h
  have h2 := (IsMarkerPixel_iff p).1 hf
  simp only [withinTolerance, refFilled, refMarker, refFilledMarker, channelDiff] at h1 h2
  omega

theorem IsMarkerPixel_not_filled {p : RGBQUAD} (h : IsMarkerPixel p = true) :
    IsFilledPixel p = false := by
  refine Bool.eq_false_iff.2 fun hf => ?_
  rw [IsFilledPixel_not_marker hf] at h
  exact Bool.false_ne_true h

theorem IsUnknownPixel_eq_false_of_filled {p : RGBQUAD} (h : IsFilledPixel p = true) :
    IsUnknownPixel p = false := by
  simp [IsUnknownPixel, h]

theorem IsUnknownPixel_eq_false_of_background {p : RGBQUAD} (h : IsBackgroundPixel p = true) :
    IsUnknownPixel p = false := by
  simp [IsUnknownPixel, h]

theorem IsUnknownPixel_eq_false_of_marker {p : RGBQUAD} (h : IsMarkerPixel p = true) :
    IsUnknownPixel p = false := by
  simp [IsUnknownPixel, h]

theorem IsUnknownPixel_not_filled {p : RGBQUAD} (h : IsUnknownPixel p = true) :
    IsFilledPixel p = false := by
  simp only [IsUnknownPixel, Bool.and_eq_true, Bool.not_eq_true'] at h
  exact h.1.1

theorem IsVerticalBarSequence_eq_false_of_not_marker (bits : Int → RGBQUAD) (rc : RECT)
    (x y : Int) (h : IsMarkerPixel (bits (pixelIndex y (rc.right - rc.left) x)) = false) :
    (IsVerticalBarSequence bits rc x y).1 = false := by
  refine Bool.eq_false_iff.2 fun hb => ?_
  rw [((IsVerticalBarSequence_eq_true_iff bits rc x y).1 hb).2.1] at h
  exact Bool.noConfusion h

/-- A Filled pixel that does not start a tick run: both counters go up by 1. -/
theorem scanBody_filled (bits : Int → RGBQUAD) (rc : RECT) (sampleY : Int) (st : ScanState)
    (h : IsFilledPixel (bits (pixelIndex sampleY (rc.right - rc.left) st.x)) = true) :
    (scanBody bits rc sampleY st).x = st.x + 1 ∧
      (scanBody bits rc sampleY st).totalPixels = st.totalPixels + 1 ∧
      (scanBody bits rc sampleY st).filledPixels = st.filledPixels + 1 := by
  have h1 := scanBody_plain bits rc sampleY st (IsUnknownPixel_eq_false_of_filled h)
    (IsVerticalBarSequence_eq_false_of_not_marker bits rc st.x sampleY
      (IsFilledPixel_not_marker h))
  simpa [h] using h1

/-- A Background pixel: `totalPixels` goes up by 1, `filledPixels` stays. -/
theorem scanBody_background (bits : Int → RGBQUAD) (rc : RECT) (sampleY : Int)
    (st : ScanState)
    (h : IsBackgroundPixel (bits (pixelIndex sampleY (rc.right - rc.left) st.x)) = true) :
    (scanBody bits rc sampleY st).x = st.x + 1 ∧
      (scanBody bits rc sampleY st).totalPixels = st.totalPixels + 1 ∧
      (scanBody bits rc sampleY st).filledPixels = st.filledPixels := by
  have h1 := scanBody_plain bits rc sampleY st (IsUnknownPixel_eq_false_of_background h)
    (IsVerticalBarSequence_eq_false_of_not_marker bits rc st.x sampleY
      (IsBackgroundPixel_not_marker h))
  simpa [IsBackgroundPixel_not_filled h] using h1

/-! ## Pixel addressing lemmas -/

/-- Where no `int` operation of the byte offset overflows, the pixel addressed
is pixel `y * width + x`. -/
theorem pixelIndex_of_small (y width x : Int) (h0 : 0 ≤ y * width) (hx : 0 ≤ x)
    (h : y * width + x < 536870912) : pixelIndex y width x = y * width + x := by
  unfold pixelIndex wrapInt32
  generalize y * width = p at h0 h ⊢
  omega

/-! ## Single-precision rounding lemmas -/

theorem roundHalfEven_cases (m : ℚ) :
    roundHalfEven m = ⌊m⌋ ∨ (roundHalfEven m = ⌊m⌋ + 1 ∧ (1 : ℚ) / 2 ≤ m - ⌊m⌋) := by
  unfold roundHalfEven
  simp only
  split_ifs with h1 h2 h3
  · exact Or.inl rfl
  · exact Or.inr ⟨rfl, h2.le⟩
  · exact Or.inl rfl
  · exact Or.inr ⟨rfl, not_lt.1 h1⟩

theorem roundHalfEven_intCast (n : ℤ) : roundHalfEven (n : ℚ) = n := by
  unfold roundHalfEven
  simp

theorem roundHalfEven_le {m : ℚ} {N : ℤ} (h : m ≤ N) : roundHalfEven m ≤ N := by
  have hf : ⌊m⌋ ≤ N := Int.floor_le_iff.2 (lt_of_le_of_lt h (by simp))
  rcases roundHalfEven_cases m with h1 | ⟨h1, h2⟩
  · rw [h1]; exact hf
  · rw [h1]
    by_contra hcon
    have hN : ⌊m⌋ = N := by omega
    have : (N : ℚ) ≤ m := by rw [← hN]; exact Int.floor_le m
    have hm : m = N := le_antisymm h this
    rw [hm, Int.floor_intCast] at h2
    norm_num at h2

theorem roundHalfEven_ge {m : ℚ} {N : ℤ} (h : (N : ℚ) ≤ m) : N ≤ roundHalfEven m := by
  have hf : N ≤ ⌊m⌋ := Int.le_floor.2 h
  rcases roundHalfEven_cases m with h1 | ⟨h1, -⟩
  · rw [h1]; exact hf
  · rw [h1]; omega

theorem roundHalfEven_down {m : ℚ} {r : ℤ} (h1 : (r : ℚ) ≤ m) (h2 : m < r + 1 / 2) :
    roundHalfEven m = r := by
  have hf : ⌊m⌋ = r := Int.floor_eq_iff.2 ⟨h1, by linarith⟩
  unfold roundHalfEven
  simp only [hf]
  rw [if_pos (by linarith)]

theorem roundHalfEven_up {m : ℚ} {r : ℤ} (h1 : (r : ℚ) + 1 / 2 < m) (h2 : m < r + 1) :
    roundHalfEven m = r + 1 := by
  have hf : ⌊m⌋ = r := Int.floor_eq_iff.2 ⟨by linarith, h2⟩
  unfold roundHalfEven
  simp only [hf]
  rw [if_neg (by linarith), if_pos (by linarith)]

theorem roundHalfEven_tie {m : ℚ} {r : ℤ} (h : m = r + 1 / 2) :
    roundHalfEven m = if r % 2 = 0 then r else r + 1 := by
  have hf : ⌊m⌋ = r := Int.floor_eq_iff.2 ⟨by linarith, by linarith⟩
  unfold roundHalfEven
  simp only [hf]
  rw [if_neg (by linarith), if_neg (by linarith)]

theorem log_two_eq {q : ℚ} {e : ℤ} (hq : 0 < q) (h1 : (2 : ℚ) ^ e ≤ q)
    (h2 : q < (2 : ℚ) ^ (e + 1)) : Int.log 2 q = e := by
  have a : e ≤ Int.log 2 q :=
    (Int.zpow_le_iff_le_log (by decide) hq).1 (by exact_mod_cast h1)
  have b : Int.log 2 q < e + 1 :=
    (Int.lt_zpow_iff_log_lt (by decide) hq).1 (by exact_mod_cast h2)
  omega

/-- `roundFloat` of a positive rational whose binade is known. -/
theorem roundFloat_of_binade {q : ℚ} {e : ℤ} (hq : 0 < q) (h1 : (2 : ℚ) ^ e ≤ q)
    (h2 : q < (2 : ℚ) ^ (e + 1)) :
    roundFloat q = (roundHalfEven (q / (2 : ℚ) ^ (e - 23)) : ℚ) * (2 : ℚ) ^ (e - 23) := by
  unfold roundFloat
  rw [if_neg hq.ne', abs_of_pos hq, log_two_eq hq h1 h2]

theorem roundFloat_zero : roundFloat 0 = 0 := by
  simp [roundFloat]

theorem binade_bounds {q : ℚ} (hq : 0 < q) :
    (2 : ℚ) ^ (Int.log 2 q) ≤ q ∧ q < (2 : ℚ) ^ (Int.log 2 q + 1) := by
  have a := Int.zpow_log_le_self (R := ℚ) (b := 2) (by decide) hq
  have b := Int.lt_zpow_succ_log_self (R := ℚ) (b := 2) (by decide) q
  exact ⟨by exact_mod_cast a, by exact_mod_cast b⟩

theorem roundFloat_pos {q : ℚ} (hq : 0 < q) : 0 < roundFloat q := by
  obtain ⟨h1, h2⟩ := binade_bounds hq
  rw [roundFloat_of_binade hq h1 h2]
  have hu : (0 : ℚ) < (2 : ℚ) ^ (Int.log 2 q - 23) := zpow_pos (by norm_num) _
  have hm : ((1 : ℤ) : ℚ) ≤ q / (2 : ℚ) ^ (Int.log 2 q - 23) := by
    rw [le_div_iff₀ hu]
    have : (2 : ℚ) ^ (Int.log 2 q - 23) ≤ (2 : ℚ) ^ (Int.log 2 q) :=
      zpow_le_zpow_right₀ (by norm_num) (by omega)
    push_cast
    linarith
  have hr : (1 : ℤ) ≤ roundHalfEven (q / (2 : ℚ) ^ (Int.log 2 q - 23)) := roundHalfEven_ge hm
  have hr' : (0 : ℚ) < (roundHalfEven (q / (2 : ℚ) ^ (Int.log 2 q - 23)) : ℚ) := by
    exact_mod_cast (by omega : (0 : ℤ) < roundHalfEven (q / (2 : ℚ) ^ (Int.log 2 q - 23)))
  exact mul_pos hr' hu

theorem roundFloat_nonneg {q : ℚ} (hq : 0 ≤ q) : 0 ≤ roundFloat q := by
  rcases hq.eq_or_lt with h | h
  · rw [← h, roundFloat_zero]
  · exact (roundFloat_pos h).le

/-- A non-zero natural number below `2^24`, scaled by a power of two, is a
`float`: rounding leaves it as it is. -/
theorem roundFloat_exact (k : ℕ) (j : ℤ) (hk0 : 0 < k) (hk : k < 2 ^ 24) :
    roundFloat ((k : ℚ) * (2 : ℚ) ^ j) = (k : ℚ) * (2 : ℚ) ^ j := by
  have h2j : (0 : ℚ) < (2 : ℚ) ^ j := zpow_pos (by norm_num) _
  have hq : (0 : ℚ) < (k : ℚ) * (2 : ℚ) ^ j := mul_pos (by exact_mod_cast hk0) h2j
  obtain ⟨h1, h2⟩ := binade_bounds hq
  rw [roundFloat_of_binade hq h1 h2]
  generalize Int.log 2 ((k : ℚ) * (2 : ℚ) ^ j) = e at h1 h2 ⊢
  have hlt : (2 : ℚ) ^ e < (2 : ℚ) ^ (24 + j) := by
    have hk' : (k : ℚ) < (2 : ℚ) ^ (24 : ℤ) := by
      have h16 : k < 16777216 := by simpa using hk
      norm_num
      exact h16
    calc (2 : ℚ) ^ e ≤ (k : ℚ) * (2 : ℚ) ^ j := h1
      _ < (2 : ℚ) ^ (24 : ℤ) * (2 : ℚ) ^ j := mul_lt_mul_of_pos_right hk' h2j
      _ = (2 : ℚ) ^ (24 + j) := by rw [← zpow_add₀ (by norm_num)]
  have he : e < 24 + j := (zpow_lt_zpow_iff_right₀ (by norm_num : (1 : ℚ) < 2)).1 hlt
  obtain ⟨d, hd⟩ : ∃ d : ℕ, (d : ℤ) = j - (e - 23) := ⟨(j - (e - 23)).toNat, by omega⟩
  have hdiv : (k : ℚ) * (2 : ℚ) ^ j / (2 : ℚ) ^ (e - 23) = (((k * 2 ^ d : ℕ) : ℤ) : ℚ) := by
    rw [mul_div_assoc, ← zpow_sub₀ (by norm_num), ← hd]
    push_cast
    rw [zpow_natCast]
  rw [hdiv, roundHalfEven_intCast]
  push_cast
  rw [mul_assoc, ← zpow_natCast, hd, ← zpow_add₀ (by norm_num)]
  congr 2
  ring

theorem roundFloat_natCast (k : ℕ) (hk : k < 2 ^ 24) : roundFloat (k : ℚ) = k := by
  rcases Nat.eq_zero_or_pos k with h | h
  · rw [h]; simp [roundFloat_zero]
  · simpa using roundFloat_exact k 0 h hk

/-- Rounding does not carry a value from at most 100 to above 100. -/
theorem roundFloat_le_hundred {q : ℚ} (h0 : 0 ≤ q) (h : q ≤ 100) : roundFloat q ≤ 100 := by
  rcases h0.eq_or_lt with hz | hq
  · rw [← hz, roundFloat_zero]; norm_num
  · obtain ⟨h1, h2⟩ := binade_bounds hq
    rw [roundFloat_of_binade hq h1 h2]
    generalize Int.log 2 q = e at h1 h2 ⊢
    have hlt : (2 : ℚ) ^ e < (2 : ℚ) ^ (7 : ℤ) := by
      calc (2 : ℚ) ^ e ≤ q := h1
        _ ≤ 100 := h
        _ < (2 : ℚ) ^ (7 : ℤ) := by norm_num
    have he : e < 7 := (zpow_lt_zpow_iff_right₀ (by norm_num : (1 : ℚ) < 2)).1 hlt
    obtain ⟨d, hd⟩ : ∃ d : ℕ, (d : ℤ) = 23 - e := ⟨(23 - e).toNat, by omega⟩
    have hu : (0 : ℚ) < (2 : ℚ) ^ (e - 23) := zpow_pos (by norm_num) _
    have hN : (100 : ℚ) / (2 : ℚ) ^ (e - 23) = (((100 * 2 ^ d : ℕ) : ℤ) : ℚ) := by
      have : e - 23 = -(d : ℤ) := by omega
      rw [this, zpow_neg, div_inv_eq_mul, zpow_natCast]
      push_cast
      ring
    have hle : q / (2 : ℚ) ^ (e - 23) ≤ (((100 * 2 ^ d : ℕ) : ℤ) : ℚ) := by
      rw [← hN]
      exact div_le_div_of_nonneg_right h hu.le
    have hr := roundHalfEven_le hle
    have hr' : (roundHalfEven (q / (2 : ℚ) ^ (e - 23)) : ℚ) ≤ (((100 * 2 ^ d : ℕ) : ℤ) : ℚ) := by
      exact_mod_cast hr
    calc (roundHalfEven (q / (2 : ℚ) ^ (e - 23)) : ℚ) * (2 : ℚ) ^ (e - 23)
        ≤ (((100 * 2 ^ d : ℕ) : ℤ) : ℚ) * (2 : ℚ) ^ (e - 23) :=
          mul_le_mul_of_nonneg_right hr' hu.le
      _ = 100 := by rw [← hN, div_mul_cancel₀ _ hu.ne']

/-! ## The percentage computed in single precision -/

theorem floatPercentage_zero (t : Int) : floatPercentage 0 t = 0 := by
  simp [floatPercentage, roundFloat_zero]

theorem roundFloat_intCast {n : Int} (h0 : 0 ≤ n) (h : n < 2 ^ 24) :
    roundFloat (n : ℚ) = n := by
  obtain ⟨k, rfl⟩ := Int.eq_ofNat_of_zero_le h0
  have hk : k < 2 ^ 24 := by exact_mod_cast h
  simpa using roundFloat_natCast k hk

/-- `filledPixels * 100.0f` is exact for a counter of at most 671088. -/
theorem roundFloat_times_hundred {n : Int} (h0 : 0 ≤ n) (h : n ≤ 671088) :
    roundFloat ((n : ℚ) * 100) = (n : ℚ) * 100 := by
  obtain ⟨k, rfl⟩ := Int.eq_ofNat_of_zero_le h0
  have hk : k ≤ 671088 := by exact_mod_cast h
  rcases Nat.eq_zero_or_pos k with hz | hpos
  · rw [hz]; simp [roundFloat_zero]
  · have := roundFloat_exact (k * 25) 2 (by omega) (by
      have : (2 : ℕ) ^ 24 = 16777216 := by norm_num
      omega)
    have e : ((k * 25 : ℕ) : ℚ) * (2 : ℚ) ^ (2 : ℤ) = ((k : ℤ) : ℚ) * 100 := by
      push_cast
      norm_num
      ring
    rw [e] at this
    exact this

/-- For counters up to 671088 the conversions and the product are exact, and
the percentage is the exact ratio rounded once. -/
theorem floatPercentage_single_rounding {f t : Int} (hf0 : 0 ≤ f) (hf : f ≤ 671088)
    (ht0 : 0 ≤ t) (ht : t < 2 ^ 24) :
    floatPercentage f t = roundFloat ((f : ℚ) * 100 / (t : ℚ)) := by
  unfold floatPercentage
  rw [roundFloat_intCast hf0 (by
      have : (2 : ℤ) ^ 24 = 16777216 := by norm_num
      omega),
    roundFloat_times_hundred hf0 hf, roundFloat_intCast ht0 ht]

theorem floatPercentage_nonneg {f t : Int} (hf0 : 0 ≤ f) (ht0 : 0 ≤ t) :
    0 ≤ floatPercentage f t := by
  unfold floatPercentage
  apply roundFloat_nonneg
  apply div_nonneg
  · apply roundFloat_nonneg
    apply mul_nonneg
    · exact roundFloat_nonneg (by exact_mod_cast hf0)
    · norm_num
  · exact roundFloat_nonneg (by exact_mod_cast ht0)

theorem floatPercentage_le_hundred {f t : Int} (hf0 : 0 ≤ f) (hft : f ≤ t)
    (ht : t ≤ 671088) : floatPercentage f t ≤ 100 := by
  rw [floatPercentage_single_rounding hf0 (by omega) (by omega) (by
    have : (2 : ℤ) ^ 24 = 16777216 := by norm_num
    omega)]
  have hfq : (0 : ℚ) ≤ (f : ℚ) := by exact_mod_cast hf0
  have hftq : (f : ℚ) ≤ (t : ℚ) := by exact_mod_cast hft
  rcases (le_trans hf0 hft).eq_or_lt with hz | hpos
  · rw [← hz]; simp [roundFloat_zero]
  · have htq : (0 : ℚ) < (t : ℚ) := by exact_mod_cast hpos
    apply roundFloat_le_hundred
    · positivity
    · rw [div_le_iff₀ htq]; nlinarith

theorem floatPercentage_self {t : Int} (ht0 : 0 < t) (ht : t ≤ 671088) :
    floatPercentage t t = 100 := by
  rw [floatPercentage_single_rounding ht0.le ht ht0.le (by
    have : (2 : ℤ) ^ 24 = 16777216 := by norm_num
    omega)]
  have htq : (t : ℚ) ≠ 0 := by exact_mod_cast ht0.ne'
  have e : (t : ℚ) * 100 / (t : ℚ) = ((25 : ℕ) : ℚ) * (2 : ℚ) ^ (2 : ℤ) := by
    field_simp
    norm_num
  rw [e, roundFloat_exact 25 2 (by decide) (by norm_num)]
  norm_num

/-- `roundFloat` of a positive rational, from its binade and the rounding of
its significand. -/
theorem roundFloat_eq_of {q : ℚ} (e r : ℤ) (hq : 0 < q) (h1 : (2 : ℚ) ^ e ≤ q)
    (h2 : q < (2 : ℚ) ^ (e + 1)) (hr : roundHalfEven (q / (2 : ℚ) ^ (e - 23)) = r) :
    roundFloat q = (r : ℚ) * (2 : ℚ) ^ (e - 23) := by
  rw [roundFloat_of_binade hq h1 h2, hr]

theorem roundFloat_67108900 : roundFloat 67108900 = 67108896 := by
  rw [roundFloat_eq_of 26 8388612 (by norm_num) (by norm_num) (by norm_num)
    (by
      rw [roundHalfEven_tie (r := 8388612) (by norm_num)]
      decide)]
  norm_num

theorem roundFloat_67109100 : roundFloat 67109100 = 67109104 := by
  rw [roundFloat_eq_of 26 8388638 (by norm_num) (by norm_num) (by norm_num)
    (by
      rw [roundHalfEven_tie (r := 8388637) (by norm_num)]
      decide)]
  norm_num

/-- In single precision `671089 * 100 / 671089` is `100 - 2^-17`. -/
theorem floatPercentage_671089 : floatPercentage 671089 671089 = 13107199 / 131072 := by
  unfold floatPercentage
  have h1 : roundFloat ((671089 : ℤ) : ℚ) = 671089 := by
    simpa using roundFloat_natCast 671089 (by norm_num)
  rw [h1, show (671089 : ℚ) * 100 = 67108900 by norm_num, roundFloat_67108900]
  rw [roundFloat_eq_of 6 13107199 (by norm_num) (by norm_num) (by norm_num)
    (roundHalfEven_down (by norm_num) (by norm_num))]
  norm_num

/-- In single precision `671091 * 100 / 671091` is `100 + 2^-17`. -/
theorem floatPercentage_671091 : floatPercentage 671091 671091 = 13107201 / 131072 := by
  unfold floatPercentage
  have h1 : roundFloat ((671091 : ℤ) : ℚ) = 671091 := by
    simpa using roundFloat_natCast 671091 (by norm_num)
  rw [h1, show (671091 : ℚ) * 100 = 67109100 by norm_num, roundFloat_67109100]
  rw [roundFloat_eq_of 6 13107201 (by norm_num) (by norm_num) (by norm_num)
    (by
      have := roundHalfEven_up (m := (67109104 : ℚ) / 671091 / (2 : ℚ) ^ ((6 : ℤ) - 23))
        (r := 13107200) (by norm_num) (by norm_num)
      simpa using this)]
  norm_num

/-- In single precision `5 * 100 / 9` is `55.5555572509765625`. -/
theorem floatPercentage_5_9 : floatPercentage 5 9 = 3640889 / 65536 := by
  rw [floatPercentage_single_rounding (by decide) (by decide) (by decide) (by norm_num)]
  rw [roundFloat_eq_of 5 14563556 (by norm_num) (by norm_num) (by norm_num)
    (by
      have := roundHalfEven_up (m := ((5 : ℤ) : ℚ) * 100 / ((9 : ℤ) : ℚ) / (2 : ℚ) ^ ((5 : ℤ) - 23))
        (r := 14563555) (by norm_num) (by norm_num)
      simpa using this)]
  norm_num

/-! ## `AnalyzeRegion` in terms of the scan -/

theorem tdiv_two_eq (h : Int) (hh : 0 < h) : Int.tdiv h 2 = h / 2 :=
  Int.tdiv_eq_ediv hh.le (by decide)

theorem AnalyzeRegion_of_scan (s : CaptureSystem) (bits : Int → RGBQUAD) (st : ScanState)
    (hb : s.m_bitmapData = some bits)
    (hw : 0 < s.m_captureRegion.right - s.m_captureRegion.left)
    (hh : 0 < s.m_captureRegion.bottom - s.m_captureRegion.top)
    (hs : scan bits s.m_captureRegion = some st) :
    AnalyzeRegion s = some
      { result := if 0 < st.totalPixels then floatPercentage st.filledPixels st.totalPixels
          else 0
        reads := st.reads } := by
  have hw' : ¬ s.m_captureRegion.right - s.m_captureRegion.left ≤ 0 := by omega
  have hh' : ¬ s.m_captureRegion.bottom - s.m_captureRegion.top ≤ 0 := by omega
  simp only [AnalyzeRegion, hb, hs, hw', hh', decide_False, Bool.or_self, Bool.false_eq_true,
    if_false, gt_iff_lt]
  by_cases ht : 0 < st.totalPixels
  · have hne : roundFloat (st.totalPixels : ℚ) ≠ 0 :=
      (roundFloat_pos (by exact_mod_cast ht)).ne'
    simp [ht, checkedDiv, hne, floatPercentage]
  · simp [ht]

theorem AnalyzeRegion_of_null (s : CaptureSystem) (hb : s.m_bitmapData = none) :
    AnalyzeRegion s = some { result := 0, reads := [] } := by
  simp [AnalyzeRegion, hb]

theorem AnalyzeRegion_of_empty (s : CaptureSystem)
    (h : s.m_captureRegion.right - s.m_captureRegion.left ≤ 0 ∨
      s.m_captureRegion.bottom - s.m_captureRegion.top ≤ 0) :
    AnalyzeRegion s = some { result := 0, reads := [] } := by
  unfold AnalyzeRegion
  cases s.m_bitmapData with
  | none => rfl
  | some bits =>
    have : (decide (s.m_captureRegion.right - s.m_captureRegion.left ≤ 0) ||
        decide (s.m_captureRegion.bottom - s.m_captureRegion.top ≤ 0)) = true := by
      simpa using h
    simp only [this, if_true]

/-- `AnalyzeRegion` always returns, and the returned percentage is not negative. -/
theorem AnalyzeRegion_total (s : CaptureSystem) :
    ∃ a, AnalyzeRegion s = some a ∧ 0 ≤ a.result := by
  by_cases he : s.m_captureRegion.right - s.m_captureRegion.left ≤ 0 ∨
      s.m_captureRegion.bottom - s.m_captureRegion.top ≤ 0
  · exact ⟨_, AnalyzeRegion_of_empty s he, le_refl _⟩
  · cases hb : s.m_bitmapData with
    | none => exact ⟨_, AnalyzeRegion_of_null s hb, le_refl _⟩
    | some bits =>
      obtain ⟨st, hs, h0, h1, _⟩ := scan_counters bits s.m_captureRegion
      refine ⟨_, AnalyzeRegion_of_scan s bits st hb (by omega) (by omega) hs, ?_⟩
      show (0 : ℚ) ≤ if 0 < st.totalPixels then floatPercentage st.filledPixels st.totalPixels
        else 0
      split_ifs
      · exact floatPercentage_nonneg h0 (by omega)
      · exact le_refl _

/-- For a region at most 671088 columns wide the returned percentage is at
most 100. -/
theorem AnalyzeRegion_le_hundred (s : CaptureSystem)
    (hwidth : s.m_captureRegion.right - s.m_captureRegion.left ≤ 671088) :
    ∃ a, AnalyzeRegion s = some a ∧ 0 ≤ a.result ∧ a.result ≤ 100 := by
  by_cases he : s.m_captureRegion.right - s.m_captureRegion.left ≤ 0 ∨
      s.m_captureRegion.bottom - s.m_captureRegion.top ≤ 0
  · exact ⟨_, AnalyzeRegion_of_empty s he, le_refl _, by norm_num⟩
  · cases hb : s.m_bitmapData with
    | none => exact ⟨_, AnalyzeRegion_of_null s hb, le_refl _, by norm_num⟩
    | some bits =>
      obtain ⟨st, hs, h0, h1, h2, _⟩ := scan_counters bits s.m_captureRegion
      have h3 := h2 (by omega)
      refine ⟨_, AnalyzeRegion_of_scan s bits st hb (by omega) (by omega) hs, ?_, ?_⟩
      · show (0 : ℚ) ≤ if 0 < st.totalPixels then
            floatPercentage st.filledPixels st.totalPixels else 0
        split_ifs
        · exact floatPercentage_nonneg h0 (by omega)
        · exact le_refl _
      · show (if 0 < st.totalPixels then floatPercentage st.filledPixels st.totalPixels
          else 0) ≤ (100 : ℚ)
        split_ifs
        · exact floatPercentage_le_hundred h0 h1 (by omega)
        · norm_num

/-! ## Uniform scanlines -/

theorem IsFilledPixel_allFilledBits (i : Int) : IsFilledPixel (allFilledBits i) = true := by
  show IsFilledPixel pxFilled = true
  decide

theorem scan_all_background (bits : Int → RGBQUAD) (rc : RECT)
    (hw : 0 < rc.right - rc.left) (hh : 0 < rc.bottom - rc.top)
    (hrow : ∀ x : Int, 0 ≤ x → x < rc.right - rc.left →
      IsBackgroundPixel (bits (pixelIndex ((rc.bottom - rc.top) / 2)
          (rc.right - rc.left) x)) = true) :
    ∃ st, scan bits rc = some st ∧ st.filledPixels = 0 ∧
      st.totalPixels = rc.right - rc.left := by
  obtain ⟨st, h1, ⟨h2, h3, h4, h5⟩, h6⟩ := scan_invariant bits rc
    (fun st => st.filledPixels = 0 ∧ st.totalPixels = st.x ∧ 0 ≤ st.x ∧
      st.x ≤ rc.right - rc.left)
    ⟨rfl, rfl, le_refl _, hw.le⟩
    (fun st hx hP => by
      rw [tdiv_two_eq _ hh]
      obtain ⟨e1, e2, e3⟩ := scanBody_background bits rc _ st (hrow st.x hP.2.2.1 hx)
      rw [e1, e2, e3]
      omega)
  exact ⟨st, h1, h2, by omega⟩

theorem scan_all_filled (bits : Int → RGBQUAD) (rc : RECT)
    (hw : 0 < rc.right - rc.left) (hh : 0 < rc.bottom - rc.top)
    (hrow : ∀ x : Int, 0 ≤ x → x < rc.right - rc.left →
      IsFilledPixel (bits (pixelIndex ((rc.bottom - rc.top) / 2) (rc.right - rc.left) x)) = true) :
    ∃ st, scan bits rc = some st ∧ st.filledPixels = rc.right - rc.left ∧
      st.totalPixels = rc.right - rc.left := by
  obtain ⟨st, h1, ⟨h2, h3, h4, h5⟩, h6⟩ := scan_invariant bits rc
    (fun st => st.filledPixels = st.x ∧ st.totalPixels = st.x ∧ 0 ≤ st.x ∧
      st.x ≤ rc.right - rc.left)
    ⟨rfl, rfl, le_refl _, hw.le⟩
    (fun st hx hP => by
      rw [tdiv_two_eq _ hh]
      obtain ⟨e1, e2, e3⟩ := scanBody_filled bits rc _ st (hrow st.x hP.2.2.1 hx)
      rw [e1, e2, e3]
      omega)
  exact ⟨st, h1, by omega, by omega⟩

theorem isRegularMarker_iff (p : RGBQUAD) :
    isRegularMarker p = true ↔ withinTolerance p refMarker 12 := by
  have h1 := abs_sub_le_iff_channelDiff p.rgbRed 0x99 12
  have h2 := abs_sub_le_iff_channelDiff p.rgbGreen 0xA6 12
  have h3 := abs_sub_le_iff_channelDiff p.rgbBlue 0xC0 12
  simp only [Nat.cast_ofNat] at h1 h2 h3
  simp only [isRegularMarker, withinTolerance, refMarker, Bool.and_eq_true,
    decide_eq_true_eq, h1, h2, h3, and_assoc]

theorem IsMarkerPixel_eq_or (p : RGBQUAD) :
    IsMarkerPixel p = (isRegularMarker p || IsFilledMarkerPixel p) := rfl

theorem IsFilledMarkerPixel_imp_marker {p : RGBQUAD} (h : IsFilledMarkerPixel p = true) :
    IsMarkerPixel p = true := by
  rw [IsMarkerPixel_eq_or, h, Bool.or_true]

theorem isRegularMarker_imp_marker {p : RGBQUAD} (h : isRegularMarker p = true) :
    IsMarkerPixel p = true := by
  rw [IsMarkerPixel_eq_or, h, Bool.true_or]

theorem IsBackgroundPixel_not_filledMarker {p : RGBQUAD} (h : IsBackgroundPixel p = true) :
    IsFilledMarkerPixel p = false := by
  refine Bool.eq_false_iff.2 fun hf => ?_
  have := IsFilledMarkerPixel_imp_marker hf
  rw [IsBackgroundPixel_not_marker h] at this
  exact Bool.false_ne_true this

theorem isRegularMarker_not_filledMarker {p : RGBQUAD} (h : isRegularMarker p = true) :
    IsFilledMarkerPixel p = false := by
  refine Bool.eq_false_iff.2 fun hf => ?_
  have h1 := (isRegularMarker_iff p).1 h
  have h2 := (IsFilledMarkerPixel_iff p).1 hf
  simp only [withinTolerance, refMarker, refFilledMarker, channelDiff] at h1 h2
  omega

/-- What a passing class test says about the red and blue channels. -/
theorem PixelClass.test_window (p : RGBQUAD) (c : PixelClass) (h : c.test p = true) :
    (c = PixelClass.Background ∧ p.rgbRed ≤ 8) ∨
      (c = PixelClass.Filled ∧ 25 ≤ p.rgbRed ∧ p.rgbRed ≤ 65) ∨
      (c = PixelClass.Marker ∧ 141 ≤ p.rgbRed ∧ p.rgbBlue ≤ 204) ∨
      (c = PixelClass.FilledMarker ∧ 143 ≤ p.rgbRed ∧ 225 ≤ p.rgbBlue) := by
  cases c with
  | Background =>
    have h1 := (IsBackgroundPixel_iff p).1 h
    simp only [withinTolerance, refBackground, channelDiff] at h1
    exact Or.inl ⟨rfl, by omega⟩
  | Filled =>
    have h1 := (IsFilledPixel_iff p).1 h
    simp only [withinTolerance, refFilled, channelDiff] at h1
    exact Or.inr (Or.inl ⟨rfl, by omega, by omega⟩)
  | Marker =>
    have h1 := (isRegularMarker_iff p).1 h
    simp only [withinTolerance, refMarker, channelDiff] at h1
    exact Or.inr (Or.inr (Or.inl ⟨rfl, by omega, by omega⟩))
  | FilledMarker =>
    have h1 := (IsFilledMarkerPixel_iff p).1 h
    simp only [withinTolerance, refFilledMarker, channelDiff] at h1
    exact Or.inr (Or.inr (Or.inr ⟨rfl, by omega, by omega⟩))
  | Unknown => exact absurd h Bool.false_ne_true

/-- At most one class test passes. -/
theorem PixelClass.test_unique (p : RGBQUAD) (c1 c2 : PixelClass)
    (h1 : c1.test p = true) (h2 : c2.test p = true) : c1 = c2 := by
  rcases PixelClass.test_window p c1 h1 with ⟨e1, a1⟩ | ⟨e1, a1⟩ | ⟨e1, a1⟩ | ⟨e1, a1⟩ <;>
    rcases PixelClass.test_window p c2 h2 with ⟨e2, a2⟩ | ⟨e2, a2⟩ | ⟨e2, a2⟩ | ⟨e2, a2⟩ <;>
    first
    | (exfalso; omega)
    | (rw [e1, e2])

/-- `classifyIn` returns the class whose test passes, when that class is tried. -/
theorem classifyIn_eq_of_test (order : List PixelClass) (p : RGBQUAD) (c : PixelClass)
    (hc : c ∈ order) (ht : c.test p = true) : classifyIn order p = c := by
  unfold classifyIn
  cases hf : order.find? (fun c => c.test p) with
  | none =>
    have := List.find?_eq_none.1 hf c hc
    exact absurd ht this
  | some c' =>
    have hc' : c'.test p = true := by simpa using List.find?_some hf
    simp only [Option.getD_some]
    exact PixelClass.test_unique p c' c hc' ht

/-- `classifyIn` returns Unknown when no tried class passes its test. -/
theorem classifyIn_eq_unknown (order : List PixelClass) (p : RGBQUAD)
    (h : ∀ c ∈ order, c.test p = false) : classifyIn order p = PixelClass.Unknown := by
  unfold classifyIn
  have : order.find? (fun c => c.test p) = none :=
    List.find?_eq_none.2 fun c hc => by simp [h c hc]
  rw [this]; rfl

theorem classifyIn_order_irrelevant (o1 o2 : List PixelClass) (p : RGBQUAD)
    (h : ∀ c, c ∈ o1 ↔ c ∈ o2) : classifyIn o1 p = classifyIn o2 p := by
  by_cases hex : ∃ c ∈ o1, c.test p = true
  · obtain ⟨c, hc, ht⟩ := hex
    rw [classifyIn_eq_of_test o1 p c hc ht, classifyIn_eq_of_test o2 p c ((h c).1 hc) ht]
  · have hall : ∀ c ∈ o1, c.test p = false := fun c hc =>
      Bool.eq_false_iff.2 fun ht => hex ⟨c, hc, ht⟩
    rw [classifyIn_eq_unknown o1 p hall,
      classifyIn_eq_unknown o2 p fun c hc => hall c ((h c).2 hc)]

/-! ## Counting the bar columns -/

theorem barColumnsBelow_succ (bits : Int → RGBQUAD) (rc : RECT) (sampleY : Int) (n : Nat) :
    barColumnsBelow bits rc sampleY (n + 1) =
      barColumnsBelow bits rc sampleY n +
        (if IsUnknownPixel (bits (pixelIndex sampleY (rc.right - rc.left) (n : Int))) = true
          then 0 else 1) := by
  unfold barColumnsBelow
  rw [List.range_succ, List.filter_append, List.length_append]
  cases h : IsUnknownPixel (bits (pixelIndex sampleY (rc.right - rc.left) (n : Int))) <;>
    simp [List.filter, h]

/-- The count of bar columns below `x + 1`, for a column `x ≥ 0`. -/
theorem barColumnsBelow_next (bits : Int → RGBQUAD) (rc : RECT) (sampleY x : Int)
    (hx : 0 ≤ x) :
    (barColumnsBelow bits rc sampleY (x + 1).toNat : Int) =
      barColumnsBelow bits rc sampleY x.toNat +
        (if IsUnknownPixel (bits (pixelIndex sampleY (rc.right - rc.left) x)) = true
          then 0 else 1) := by
  have h1 : (x + 1).toNat = x.toNat + 1 := by omega
  have h2 : ((x.toNat : Nat) : Int) = x := Int.toNat_of_nonneg hx
  rw [h1, barColumnsBelow_succ, h2]
  split_ifs <;> simp

theorem scanBody_barColumns (bits : Int → RGBQUAD) (rc : RECT) (sampleY : Int)
    (st : ScanState) (hx : st.x < rc.right - rc.left)
    (h : 0 ≤ st.x ∧ st.x ≤ rc.right - rc.left ∧
      st.totalPixels = barColumnsBelow bits rc sampleY st.x.toNat) :
    0 ≤ (scanBody bits rc sampleY st).x ∧
      (scanBody bits rc sampleY st).x ≤ rc.right - rc.left ∧
      (scanBody bits rc sampleY st).totalPixels =
        barColumnsBelow bits rc sampleY (scanBody bits rc sampleY st).x.toNat := by
  obtain ⟨h0, -, ht⟩ := h
  rcases scanBody_cases bits rc sampleY st with hc | hc | ⟨hu, hc⟩
  · obtain ⟨e1, -, e3⟩ := scanBody_unknown bits rc sampleY st hc
    rw [e1, e3, barColumnsBelow_next bits rc sampleY st.x h0, if_pos hc, ht]
    exact ⟨by omega, by omega, by omega⟩
  · obtain ⟨e1, e2, -⟩ := scanBody_tick bits rc sampleY st hc
    obtain ⟨hw, m0, m1, m2, m3⟩ := (IsVerticalBarSequence_eq_true_iff bits rc st.x sampleY).1 hc
    have u0 := IsUnknownPixel_eq_false_of_marker m0
    have u1 := IsUnknownPixel_eq_false_of_marker m1
    have u2 := IsUnknownPixel_eq_false_of_marker m2
    have u3 := IsUnknownPixel_eq_false_of_marker m3
    have n1 := barColumnsBelow_next bits rc sampleY st.x h0
    have n2 := barColumnsBelow_next bits rc sampleY (st.x + 1) (by omega)
    have n3 := barColumnsBelow_next bits rc sampleY (st.x + 2) (by omega)
    have n4 := barColumnsBelow_next bits rc sampleY (st.x + 3) (by omega)
    rw [u0] at n1
    rw [u1] at n2
    rw [u2] at n3
    rw [u3] at n4
    simp only [Bool.false_eq_true, if_false] at n1 n2 n3 n4
    have a2 : st.x + 1 + 1 = st.x + 2 := by ring
    have a3 : st.x + 2 + 1 = st.x + 3 := by ring
    have a4 : st.x + 3 + 1 = st.x + 4 := by ring
    rw [a2] at n2
    rw [a3] at n3
    rw [a4] at n4
    rw [e1, e2]
    exact ⟨by omega, by omega, by omega⟩
  · obtain ⟨e1, e2, -⟩ := scanBody_plain bits rc sampleY st hu hc
    rw [e1, e2, barColumnsBelow_next bits rc sampleY st.x h0, hu, ht]
    simp only [Bool.false_eq_true, if_false]
    exact ⟨by omega, by omega, trivial⟩

/-! ## The pixels read by the scan -/

theorem markerFilledLoop_reads (bits : Int → RGBQUAD) (width sampleY x : Int) :
    ∀ (n : Nat) (i idx : Int), idx ∈ (markerFilledLoop bits width sampleY x n i).2 →
      ∃ c, x + i ≤ c ∧ c < x + i + n ∧ idx = pixelIndex sampleY width c := by
  intro n
  induction n with
  | zero => intro i idx h; simp [markerFilledLoop] at h
  | succ n ih =>
    intro i idx h
    simp only [markerFilledLoop] at h
    split_ifs at h with h1
    · simp only [List.mem_singleton] at h
      exact ⟨x + i, le_refl _, by push_cast; omega, h⟩
    · simp only [List.mem_cons] at h
      rcases h with h | h
      · exact ⟨x + i, le_refl _, by push_cast; omega, h⟩
      · obtain ⟨c, hc1, hc2, hc3⟩ := ih (i + 1) idx h
        exact ⟨c, by omega, by push_cast; omega, hc3⟩

/-- Every pixel one loop iteration reads lies on row `sampleY`, at a column of
the region. -/
theorem scanBody_reads (bits : Int → RGBQUAD) (rc : RECT) (sampleY : Int) (st : ScanState)
    (h0 : 0 ≤ st.x) (hx : st.x < rc.right - rc.left) :
    ∀ idx ∈ (scanBody bits rc sampleY st).reads, idx ∈ st.reads ∨ onRow rc sampleY idx := by
  intro idx hidx
  have hbarReads : ∀ j ∈ (IsVerticalBarSequence bits rc st.x sampleY).2, onRow rc sampleY j := by
    intro j hj
    obtain ⟨c, hc1, -, hc3, hc4⟩ := IsVerticalBarSequenceLoop_reads bits rc st.x sampleY 4 0 j hj
    exact ⟨c, by omega, hc3, hc4⟩
  have hself : onRow rc sampleY (pixelIndex sampleY (rc.right - rc.left) st.x) :=
    ⟨st.x, h0, hx, rfl⟩
  rcases scanBody_cases bits rc sampleY st with hc | hc | ⟨hu, hc⟩
  · unfold IsUnknownPixel at hc
    simp only [scanBody, hc, if_true, List.mem_append, List.mem_singleton] at hidx
    rcases hidx with h | h
    · exact Or.inl h
    · exact Or.inr (h ▸ hself)
  · have hm := ((IsVerticalBarSequence_eq_true_iff bits rc st.x sampleY).1 hc).2.1
    have hw := ((IsVerticalBarSequence_eq_true_iff bits rc st.x sampleY).1 hc).1
    have hu : IsUnknownPixel (bits (pixelIndex sampleY (rc.right - rc.left) st.x)) = false :=
      IsUnknownPixel_eq_false_of_marker hm
    unfold IsUnknownPixel at hu
    simp only [scanBody, hu, hc, if_true, Bool.false_eq_true, if_false, List.mem_append,
      List.mem_singleton] at hidx
    rcases hidx with ((((h | h) | h) | h) | h) | h
    · exact Or.inl h
    · exact Or.inr (h ▸ hself)
    · exact Or.inr (hbarReads idx h)
    · split_ifs at h with hpos
      · simp only [List.mem_singleton] at h
        exact Or.inr ⟨st.x - 1, by omega, by omega, h⟩
      · simp at h
    · split_ifs at h with hlt
      · simp only [List.mem_singleton] at h
        exact Or.inr ⟨st.x + 4, by omega, hlt, h⟩
      · simp at h
    · obtain ⟨c, hc1, hc2, hc3⟩ :=
        markerFilledLoop_reads bits (rc.right - rc.left) sampleY st.x 4 0 idx h
      exact Or.inr ⟨c, by omega, by push_cast at hc2; omega, hc3⟩
  · unfold IsUnknownPixel at hu
    simp only [scanBody, hu, hc, Bool.false_eq_true, if_false, List.mem_append,
      List.mem_singleton] at hidx
    rcases hidx with (h | h) | h
    · exact Or.inl h
    · exact Or.inr (h ▸ hself)
    · exact Or.inr (hbarReads idx h)

/-- In a buffer of at most `2^29` pixels no byte offset overflows: a pixel
addressed on a row of the region, at a column of the region, is pixel
`y * width + c` of the `width * height` buffer. -/
theorem onRow_bounds (rc : RECT) (y idx : Int) (hy0 : 0 ≤ y) (hy : y < rc.bottom - rc.top)
    (hsize : (rc.right - rc.left) * (rc.bottom - rc.top) ≤ 536870912)
    (h : onRow rc y idx) :
    0 ≤ idx ∧ idx < (rc.right - rc.left) * (rc.bottom - rc.top) ∧
      ∃ c : Int, 0 ≤ c ∧ c < rc.right - rc.left ∧ idx = y * (rc.right - rc.left) + c := by
  obtain ⟨c, hc0, hc1, rfl⟩ := h
  have hw : 0 ≤ rc.right - rc.left := by omega
  have hyw := mul_nonneg hy0 hw
  have h1 : (y + 1) * (rc.right - rc.left) ≤ (rc.bottom - rc.top) * (rc.right - rc.left) :=
    mul_le_mul_of_nonneg_right (by omega) hw
  have h2 : (y + 1) * (rc.right - rc.left) = y * (rc.right - rc.left) + (rc.right - rc.left) := by
    ring
  have h3 : (rc.bottom - rc.top) * (rc.right - rc.left) =
      (rc.right - rc.left) * (rc.bottom - rc.top) := by ring
  have hlt : y * (rc.right - rc.left) + c < (rc.right - rc.left) * (rc.bottom - rc.top) := by
    omega
  rw [pixelIndex_of_small y (rc.right - rc.left) c hyw hc0 (by omega)]
  exact ⟨by omega, hlt, c, hc0, hc1, rfl⟩

theorem sampleY_bounds (height : Int) (hh : 0 < height) :
    0 ≤ height / 2 ∧ height / 2 < height := by
  omega

/-! ## Frame processing and the capture loop -/

theorem BitBlt_failed (data : Option (Int → RGBQUAD)) : BitBlt data none = data := by
  cases data <;> rfl

/-- `ProcessFrame` always returns, and posts exactly one `WM_USER_XP_UPDATE`
message carrying the result of `AnalyzeRegion` on the buffer left by `BitBlt`. -/
theorem ProcessFrame_posts (s : CaptureSystem) (capture : Option (Int → RGBQUAD)) :
    ∃ a, AnalyzeRegion { s with m_bitmapData := BitBlt s.m_bitmapData capture } = some a ∧
      ProcessFrame s capture = some (a.result,
        { s with m_bitmapData := BitBlt s.m_bitmapData capture },
        [{ hwnd := s.m_overlayWindow, msg := WM_USER_XP_UPDATE, wParam := 0,
           lParam := a.result }]) := by
  obtain ⟨a, ha, -⟩ :=
    AnalyzeRegion_total { s with m_bitmapData := BitBlt s.m_bitmapData capture }
  exact ⟨a, ha, by simp only [ProcessFrame, ha]⟩

theorem FRAME_DURATION_eq : FRAME_DURATION = 250 := by decide

/-- The loop of `CaptureThread` over any ticks: it returns; it runs
`loopIterations` iterations; each posts one message and adds one deadline,
the previous deadline plus 250. -/
theorem CaptureThreadLoop_spec :
    ∀ (ticks : List Tick) (st : ThreadState),
      ∃ st', CaptureThreadLoop ticks st = some st' ∧
        st'.posted.length =
          st.posted.length + loopIterations ticks st.session.m_isCapturing ∧
        (∀ m ∈ st'.posted, m ∈ st.posted ∨ m.msg = WM_USER_XP_UPDATE) ∧
        st'.deadlines = st.deadlines ++
          (List.range (loopIterations ticks st.session.m_isCapturing)).map
            (fun j : Nat => st.nextCapture + ((j : ℚ) + 1) * 250) ∧
        st'.nextCapture =
          st.nextCapture + (loopIterations ticks st.session.m_isCapturing : ℚ) * 250 := by
  intro ticks
  induction ticks with
  | nil =>
    intro st
    exact ⟨st, rfl, by simp [loopIterations], fun m hm => Or.inl hm,
      by simp [loopIterations], by simp [loopIterations]⟩
  | cons tick rest ih =>
    intro st
    cases hc : st.session.m_isCapturing with
    | false =>
      exact ⟨st, by simp [CaptureThreadLoop, hc], by simp [loopIterations],
        fun m hm => Or.inl hm, by simp [loopIterations], by simp [loopIterations]⟩
    | true =>
      obtain ⟨a, -, hp⟩ := ProcessFrame_posts st.session tick.capture
      obtain ⟨st', h1, h2, h3, h4, h5⟩ := ih
        { session :=
            { st.session with
              m_bitmapData := BitBlt st.session.m_bitmapData tick.capture
              m_isCapturing := st.session.m_isCapturing && !tick.stopped }
          nextCapture := st.nextCapture + (FRAME_DURATION : ℚ)
          now := max (st.now + tick.elapsed) (st.nextCapture + (FRAME_DURATION : ℚ)) +
            tick.oversleep
          posted := st.posted ++
            [{ hwnd := st.session.m_overlayWindow, msg := WM_USER_XP_UPDATE, wParam := 0,
               lParam := a.result }]
          deadlines := st.deadlines ++ [st.nextCapture + (FRAME_DURATION : ℚ)] }
      refine ⟨st', ?_, ?_, ?_, ?_, ?_⟩
      · simp only [CaptureThreadLoop, hc, if_true, hp]
        simpa [hc] using h1
      · rw [h2]
        simp only [List.length_append, List.length_singleton, hc, Bool.true_and,
          loopIterations, if_true]
        omega
      · intro m hm
        rcases h3 m hm with h | h
        · simp only [List.mem_append, List.mem_singleton] at h
          rcases h with h | h
          · exact Or.inl h
          · exact Or.inr (by rw [h])
        · exact Or.inr h
      · rw [h4]
        simp only [hc, Bool.true_and, loopIterations, if_true, FRAME_DURATION_eq,
          List.append_assoc, List.singleton_append]
        congr 1
        rw [Nat.add_comm 1, List.range_succ_eq_map, List.map_cons, List.map_map]
        congr 1
        · push_cast; ring
        · apply List.map_congr_left
          intro j _
          simp only [Function.comp, Nat.cast_succ]
          push_cast
          ring
      · rw [h5]
        simp only [hc, Bool.true_and, loopIterations, if_true, FRAME_DURATION_eq]
        push_cast
        ring

theorem loopIterations_never_stopped :
    ∀ (ticks : List Tick), (∀ t ∈ ticks, t.stopped = false) →
      loopIterations ticks true = ticks.length := by
  intro ticks
  induction ticks with
  | nil => intro _; rfl
  | cons tick rest ih =>
    intro h
    have h1 : tick.stopped = false := h tick (List.mem_cons_self _ _)
    have h2 := ih fun t ht => h t (List.mem_cons_of_mem _ ht)
    simp only [loopIterations, if_true, h1, Bool.not_false, h2, List.length_cons]
    omega

theorem loopIterations_congr :
    ∀ (ticks ticks' : List Tick) (c : Bool),
      ticks'.map (fun t => t.stopped) = ticks.map (fun t => t.stopped) →
      loopIterations ticks' c = loopIterations ticks c := by
  intro ticks
  induction ticks with
  | nil =>
    intro ticks' c h
    cases ticks' with
    | nil => rfl
    | cons t r => simp at h
  | cons tick rest ih =>
    intro ticks' c h
    cases ticks' with
    | nil => simp at h
    | cons t r =>
      simp only [List.map_cons, List.cons.injEq] at h
      simp only [loopIterations, h.1, ih r (!tick.stopped) h.2]

/-- `CaptureThread` from the clock reading `t0`. -/
theorem CaptureThread_spec (t0 : ℚ) (ticks : List Tick) (s : CaptureSystem) :
    ∃ st, CaptureThread t0 ticks s = some st ∧
      st.posted.length = loopIterations ticks s.m_isCapturing ∧
      (∀ m ∈ st.posted, m.msg = WM_USER_XP_UPDATE) ∧
      st.deadlines = (List.range (loopIterations ticks s.m_isCapturing)).map
        (fun j : Nat => t0 + ((j : ℚ) + 1) * 250) := by
  obtain ⟨st, h1, h2, h3, h4, -⟩ := CaptureThreadLoop_spec ticks
    { session := s, nextCapture := t0, now := t0, posted := [], deadlines := [] }
  refine ⟨st, h1, by simpa using h2, fun m hm => ?_, by simpa using h4⟩
  rcases h3 m hm with h | h
  · simp at h
  · exact h

/-! ## Session lifecycle lemmas -/

/-- `StartCapture` on an idle session, by the outcome of `CreateDIBSection`. -/
theorem StartCapture_idle (env : Win32) (s : CaptureSystem) (region : RECT)
    (hidle : s.m_isCapturing = false) :
    ((env.CreateDIBSection s.m_memoryDC (region.right - region.left)
        (-(region.bottom - region.top))).1 = 0 →
      StartCapture env s region = (false,
        { s with
          m_captureRegion := region
          m_captureBitmap := (env.CreateDIBSection s.m_memoryDC (region.right - region.left)
            (-(region.bottom - region.top))).1
          m_bitmapData := (env.CreateDIBSection s.m_memoryDC (region.right - region.left)
            (-(region.bottom - region.top))).2 })) ∧
    ((env.CreateDIBSection s.m_memoryDC (region.right - region.left)
        (-(region.bottom - region.top))).1 ≠ 0 →
      StartCapture env s region = (true,
        { s with
          m_captureRegion := region
          m_captureBitmap := (env.CreateDIBSection s.m_memoryDC (region.right - region.left)
            (-(region.bottom - region.top))).1
          m_bitmapData := (env.CreateDIBSection s.m_memoryDC (region.right - region.left)
            (-(region.bottom - region.top))).2
          m_isCapturing := true
          m_captureThread := some env.newThread })) := by
  constructor
  · intro hd
    unfold StartCapture
    rw [hidle]
    simp only [Bool.false_eq_true, if_false]
    rw [if_pos hd]
  · intro hd
    unfold StartCapture
    rw [hidle]
    simp only [Bool.false_eq_true, if_false]
    rw [if_neg hd]

/-! # The claims -/

/-- C1: each class test of the code holds exactly when the three per-channel
absolute differences from its reference colour are within its tolerance
(`IsMarkerPixel`: from either marker colour); a pixel equal to a reference
colour is accepted, a pixel at distance exactly the tolerance is accepted, and
a pixel one past the tolerance in some channel is rejected (for
`IsMarkerPixel`: one past the tolerance of both windows, in particular at
distance exactly 13 from either marker colour). -/
theorem C1_class_tests_are_tolerance_windows (p : RGBQUAD) :
    ((IsFilledPixel p = true ↔ withinTolerance p refFilled 20) ∧
      (IsBackgroundPixel p = true ↔ withinTolerance p refBackground 8) ∧
      (IsFilledMarkerPixel p = true ↔ withinTolerance p refFilledMarker 12) ∧
      (IsMarkerPixel p = true ↔
        withinTolerance p refMarker 12 ∨ withinTolerance p refFilledMarker 12)) ∧
    (IsFilledPixel (refFilled.toPixel p.rgbReserved) = true ∧
      IsBackgroundPixel (refBackground.toPixel p.rgbReserved) = true ∧
      IsFilledMarkerPixel (refFilledMarker.toPixel p.rgbReserved) = true ∧
      IsMarkerPixel (refMarker.toPixel p.rgbReserved) = true ∧
      IsMarkerPixel (refFilledMarker.toPixel p.rgbReserved) = true) ∧
    ((chebyshev p refFilled = 20 → IsFilledPixel p = true) ∧
      (chebyshev p refBackground = 8 → IsBackgroundPixel p = true) ∧
      (chebyshev p refFilledMarker = 12 → IsFilledMarkerPixel p = true) ∧
      (chebyshev p refMarker = 12 → IsMarkerPixel p = true) ∧
      (chebyshev p refFilledMarker = 12 → IsMarkerPixel p = true)) ∧
    ((someChannelAt p refFilled 21 → IsFilledPixel p = false) ∧
      (someChannelAt p refBackground 9 → IsBackgroundPixel p = false) ∧
      (someChannelAt p refFilledMarker 13 → IsFilledMarkerPixel p = false) ∧
      (someChannelAt p refMarker 13 → someChannelAt p refFilledMarker 13 →
        IsMarkerPixel p = false) ∧
      (chebyshev p refMarker = 13 → IsMarkerPixel p = false) ∧
      (chebyshev p refFilledMarker = 13 → IsMarkerPixel p = false)) := by
  refine ⟨⟨IsFilledPixel_iff p, IsBackgroundPixel_iff p, IsFilledMarkerPixel_iff p,
    IsMarkerPixel_iff p⟩, ⟨by simp [IsFilledPixel, RefColour.toPixel, refFilled],
      by simp [IsBackgroundPixel, RefColour.toPixel, refBackground],
      by simp [IsFilledMarkerPixel, RefColour.toPixel, refFilledMarker],
      by simp [IsMarkerPixel, RefColour.toPixel, refMarker],
      by simp [IsMarkerPixel, RefColour.toPixel, refFilledMarker]⟩,
    ⟨?_, ?_, ?_, ?_, ?_⟩, ⟨?_, ?_, ?_, ?_, ?_, ?_⟩⟩
  · intro h
    exact (IsFilledPixel_iff p).2 ((withinTolerance_iff_chebyshev _ _ _).2 h.le)
  · intro h
    exact (IsBackgroundPixel_iff p).2 ((withinTolerance_iff_chebyshev _ _ _).2 h.le)
  · intro h
    exact (IsFilledMarkerPixel_iff p).2 ((withinTolerance_iff_chebyshev _ _ _).2 h.le)
  · intro h
    exact (IsMarkerPixel_iff p).2 (Or.inl ((withinTolerance_iff_chebyshev _ _ _).2 h.le))
  · intro h
    exact (IsMarkerPixel_iff p).2 (Or.inr ((withinTolerance_iff_chebyshev _ _ _).2 h.le))
  · intro h
    exact Bool.eq_false_iff.2 fun hp =>
      not_within_of_someChannelAt h ((IsFilledPixel_iff p).1 hp)
  · intro h
    exact Bool.eq_false_iff.2 fun hp =>
      not_within_of_someChannelAt h ((IsBackgroundPixel_iff p).1 hp)
  · intro h
    exact Bool.eq_false_iff.2 fun hp =>
      not_within_of_someChannelAt h ((IsFilledMarkerPixel_iff p).1 hp)
  · intro h1 h2
    exact Bool.eq_false_iff.2 fun hp =>
      ((IsMarkerPixel_iff p).1 hp).elim (not_within_of_someChannelAt h1)
        (not_within_of_someChannelAt h2)
  · intro h
    refine Bool.eq_false_iff.2 fun hp => ?_
    have hp := (IsMarkerPixel_iff p).1 hp
    simp only [chebyshev, withinTolerance, refMarker, refFilledMarker, channelDiff] at h hp
    omega
  · intro h
    refine Bool.eq_false_iff.2 fun hp => ?_
    have hp := (IsMarkerPixel_iff p).1 hp
    simp only [chebyshev, withinTolerance, refMarker, refFilledMarker, channelDiff] at h hp
    omega

/-- C1 at concrete pixels: the fill colour with its red channel moved by 20 is
Filled, and moved by 21 it is not. -/
theorem C1_class_tests_are_tolerance_windows_witness :
    chebyshev ⟨0xE2, 0x67, 0x2D + 20, 0⟩ refFilled = 20 ∧
      IsFilledPixel ⟨0xE2, 0x67, 0x2D + 20, 0⟩ = true ∧
      someChannelAt ⟨0xE2, 0x67, 0x2D + 21, 0⟩ refFilled 21 ∧
      IsFilledPixel ⟨0xE2, 0x67, 0x2D + 21, 0⟩ = false :=
  ⟨by decide,
    (C1_class_tests_are_tolerance_windows ⟨0xE2, 0x67, 0x2D + 20, 0⟩).2.2.1.1 (by decide),
    Or.inl (by decide),
    (C1_class_tests_are_tolerance_windows ⟨0xE2, 0x67, 0x2D + 21, 0⟩).2.2.2.1
      (Or.inl (by decide))⟩

/-- C2, as stated, fails: on a 671089 x 1 region whose buffer is all Filled the
scan ends with `filledPixels = totalPixels = 671089`, and the `float`
arithmetic of line 294 returns `100 - 2^-17` (99.9999924), not 100. -/
theorem C2_counterexample :
    (∀ x : Int, 0 ≤ x → x < 671089 →
      IsFilledPixel (allFilledBits (pixelIndex (1 / 2) 671089 x)) = true) ∧
    ∃ a, AnalyzeRegion (sessionOf ⟨0, 0, 671089, 1⟩ allFilledBits) = some a ∧
      a.result = 13107199 / 131072 ∧ a.result ≠ 100 := by
  refine ⟨fun _ _ _ => IsFilledPixel_allFilledBits _, ?_⟩
  obtain ⟨st, hs, hf, ht⟩ := scan_all_filled allFilledBits ⟨0, 0, 671089, 1⟩
    (by decide) (by decide) (fun _ _ _ => IsFilledPixel_allFilledBits _)
  have hf' : st.filledPixels = 671089 := by rw [hf]; rfl
  have ht' : st.totalPixels = 671089 := by rw [ht]; rfl
  have ha := AnalyzeRegion_of_scan (sessionOf ⟨0, 0, 671089, 1⟩ allFilledBits)
    allFilledBits st rfl (by decide) (by decide) hs
  rw [hf', ht', if_pos (by decide), floatPercentage_671089] at ha
  exact ⟨_, ha, rfl, by norm_num⟩

/-- C2, amended: on a non-null buffer and a region of positive width and
height, if every pixel of row `height / 2` is Background then `AnalyzeRegion`
returns 0 (the scan ends with `filledPixels = 0`, `totalPixels = width`); if
every pixel of that row is Filled the scan ends with
`filledPixels = totalPixels = width`, and `AnalyzeRegion` returns 100 when the
width is at most 671088 (so that `filledPixels * 100` is exact in `float`). -/
theorem C2_uniform_scanline (s : CaptureSystem) (bits : Int → RGBQUAD)
    (hb : s.m_bitmapData = some bits)
    (hw : 0 < s.m_captureRegion.right - s.m_captureRegion.left)
    (hh : 0 < s.m_captureRegion.bottom - s.m_captureRegion.top) :
    ((∀ x : Int, 0 ≤ x → x < s.m_captureRegion.right - s.m_captureRegion.left →
        IsBackgroundPixel (bits (pixelIndex
          ((s.m_captureRegion.bottom - s.m_captureRegion.top) / 2)
          (s.m_captureRegion.right - s.m_captureRegion.left) x)) = true) →
      ∃ a st, AnalyzeRegion s = some a ∧ a.result = 0 ∧
        scan bits s.m_captureRegion = some st ∧ st.filledPixels = 0 ∧
        st.totalPixels = s.m_captureRegion.right - s.m_captureRegion.left) ∧
    ((∀ x : Int, 0 ≤ x → x < s.m_captureRegion.right - s.m_captureRegion.left →
        IsFilledPixel (bits (pixelIndex
          ((s.m_captureRegion.bottom - s.m_captureRegion.top) / 2)
          (s.m_captureRegion.right - s.m_captureRegion.left) x)) = true) →
      ∃ a st, AnalyzeRegion s = some a ∧
        scan bits s.m_captureRegion = some st ∧
        st.filledPixels = s.m_captureRegion.right - s.m_captureRegion.left ∧
        st.totalPixels = s.m_captureRegion.right - s.m_captureRegion.left ∧
        (s.m_captureRegion.right - s.m_captureRegion.left ≤ 671088 → a.result = 100)) := by
  constructor
  · intro hrow
    obtain ⟨st, hs, hf, ht⟩ := scan_all_background bits s.m_captureRegion hw hh hrow
    refine ⟨_, st, AnalyzeRegion_of_scan s bits st hb hw hh hs, ?_, hs, hf, ht⟩
    simp [hf, floatPercentage_zero]
  · intro hrow
    obtain ⟨st, hs, hf, ht⟩ := scan_all_filled bits s.m_captureRegion hw hh hrow
    refine ⟨_, st, AnalyzeRegion_of_scan s bits st hb hw hh hs, hs, hf, ht, fun hsmall => ?_⟩
    have hpos : 0 < st.totalPixels := by omega
    simp only [hpos, if_true, hf, ← ht]
    exact floatPercentage_self hpos (by omega)

/-- C2 amended, on a 3 x 2 region whose buffer is all Filled: the result is
100. -/
theorem C2_uniform_scanline_witness :
    ∃ a, AnalyzeRegion (sessionOf ⟨0, 0, 3, 2⟩ fun _ => pxFilled) = some a ∧
      a.result = 100 := by
  obtain ⟨a, st, h1, -, -, -, h5⟩ :=
    (C2_uniform_scanline (sessionOf ⟨0, 0, 3, 2⟩ fun _ => pxFilled) (fun _ => pxFilled) rfl
      (by decide) (by decide)).2 (fun _ _ _ => by decide)
  exact ⟨a, h1, h5 (by decide)⟩

/-- C4: when the region's width or height is not positive, `AnalyzeRegion`
returns 0 and reads no pixel, whatever `m_bitmapData` is. -/
theorem C4_degenerate_region (s : CaptureSystem)
    (h : s.m_captureRegion.right - s.m_captureRegion.left ≤ 0 ∨
      s.m_captureRegion.bottom - s.m_captureRegion.top ≤ 0) :
    AnalyzeRegion s = some { result := 0, reads := [] } :=
  AnalyzeRegion_of_empty s h

/-- C4 on a region of width 0 over an all-Filled buffer. -/
theorem C4_degenerate_region_witness :
    ((5 : Int) - 5 ≤ 0 ∨ (9 : Int) - 5 ≤ 0) ∧
      AnalyzeRegion (sessionOf ⟨5, 5, 5, 9⟩ fun _ => pxFilled) =
        some { result := 0, reads := [] } :=
  ⟨Or.inl (by decide),
    C4_degenerate_region (sessionOf ⟨5, 5, 5, 9⟩ fun _ => pxFilled) (Or.inl (by decide))⟩

/-- C5, as stated, fails: on a 671091 x 1 region whose buffer is all Filled
`AnalyzeRegion` and `ProcessFrame` return `100 + 2^-17` (100.000008), above
100. -/
theorem C5_counterexample :
    (∃ a, AnalyzeRegion (sessionOf ⟨0, 0, 671091, 1⟩ allFilledBits) = some a ∧
      a.result = 13107201 / 131072 ∧ 100 < a.result) ∧
    (∃ r, ProcessFrame (sessionOf ⟨0, 0, 671091, 1⟩ allFilledBits) none = some r ∧
      100 < r.1) := by
  obtain ⟨st, hs, hf, ht⟩ := scan_all_filled allFilledBits ⟨0, 0, 671091, 1⟩
    (by decide) (by decide) (fun _ _ _ => IsFilledPixel_allFilledBits _)
  have hf' : st.filledPixels = 671091 := by rw [hf]; rfl
  have ht' : st.totalPixels = 671091 := by rw [ht]; rfl
  have ha := AnalyzeRegion_of_scan (sessionOf ⟨0, 0, 671091, 1⟩ allFilledBits)
    allFilledBits st rfl (by decide) (by decide) hs
  rw [hf', ht', if_pos (by decide), floatPercentage_671091] at ha
  refine ⟨⟨_, ha, rfl, by norm_num⟩, ?_⟩
  obtain ⟨a, ha', hp⟩ :=
    ProcessFrame_posts (sessionOf ⟨0, 0, 671091, 1⟩ allFilledBits) none
  rw [BitBlt_failed] at ha' hp
  have ha'' : AnalyzeRegion (sessionOf ⟨0, 0, 671091, 1⟩ allFilledBits) = some a := ha'
  rw [ha] at ha''
  refine ⟨_, hp, ?_⟩
  rw [← Option.some.inj ha'']
  norm_num

/-- C5, amended: the scan always exits, with `0 ≤ filledPixels ≤ totalPixels`,
and `totalPixels ≤ width` when the width is positive (`totalPixels = 0`
otherwise); `AnalyzeRegion` and `ProcessFrame` always return, the percentage
they return is never negative, and it is at most 100 when the region is at
most 671088 columns wide. -/
theorem C5_counters_and_percentage_bounds (s : CaptureSystem)
    (capture : Option (Int → RGBQUAD)) :
    (∀ bits : Int → RGBQUAD, ∃ st, scan bits s.m_captureRegion = some st ∧
      0 ≤ st.filledPixels ∧ st.filledPixels ≤ st.totalPixels ∧
      (0 < s.m_captureRegion.right - s.m_captureRegion.left →
        st.totalPixels ≤ s.m_captureRegion.right - s.m_captureRegion.left) ∧
      (s.m_captureRegion.right - s.m_captureRegion.left ≤ 0 → st.totalPixels = 0)) ∧
    (∃ a, AnalyzeRegion s = some a ∧ 0 ≤ a.result ∧
      (s.m_captureRegion.right - s.m_captureRegion.left ≤ 671088 → a.result ≤ 100)) ∧
    (∃ r, ProcessFrame s capture = some r ∧ 0 ≤ r.1 ∧
      (s.m_captureRegion.right - s.m_captureRegion.left ≤ 671088 → r.1 ≤ 100)) := by
  have key : ∀ s' : CaptureSystem, ∃ a, AnalyzeRegion s' = some a ∧ 0 ≤ a.result ∧
      (s'.m_captureRegion.right - s'.m_captureRegion.left ≤ 671088 → a.result ≤ 100) := by
    intro s'
    by_cases hsmall : s'.m_captureRegion.right - s'.m_captureRegion.left ≤ 671088
    · obtain ⟨a, ha, h0, h1⟩ := AnalyzeRegion_le_hundred s' hsmall
      exact ⟨a, ha, h0, fun _ => h1⟩
    · obtain ⟨a, ha, h0⟩ := AnalyzeRegion_total s'
      exact ⟨a, ha, h0, fun h => absurd h hsmall⟩
  refine ⟨fun bits => scan_counters bits s.m_captureRegion, key s, ?_⟩
  obtain ⟨a, ha, h0, h1⟩ := key { s with m_bitmapData := BitBlt s.m_bitmapData capture }
  refine ⟨(a.result, { s with m_bitmapData := BitBlt s.m_bitmapData capture },
    [{ hwnd := s.m_overlayWindow, msg := WM_USER_XP_UPDATE, wParam := 0, lParam := a.result }]),
    ?_, h0, h1⟩
  simp only [ProcessFrame, ha]

/-- C5 amended, on the 9-column scenario, with a failed and with a successful
capture. -/
theorem C5_counters_and_percentage_bounds_witness :
    (∃ a, AnalyzeRegion (sessionOf scenarioRegion9 scenarioBits9) = some a ∧
      0 ≤ a.result ∧ a.result ≤ 100) ∧
    (∃ r, ProcessFrame (sessionOf scenarioRegion9 scenarioBits9) (some fun _ => pxFilled) =
      some r ∧ 0 ≤ r.1 ∧ r.1 ≤ 100) := by
  obtain ⟨a, h1, h2, h3⟩ :=
    (C5_counters_and_percentage_bounds (sessionOf scenarioRegion9 scenarioBits9) none).2.1
  obtain ⟨r, g1, g2, g3⟩ :=
    (C5_counters_and_percentage_bounds (sessionOf scenarioRegion9 scenarioBits9)
      (some fun _ => pxFilled)).2.2
  exact ⟨⟨a, h1, h2, h3 (by decide)⟩, ⟨r, g1, g2, g3 (by decide)⟩⟩

/-- C6: at a scan step whose column starts a detected tick run, `totalPixels`
goes up by exactly 4, `filledPixels` by 0 or by 4, and the next step is at
column `x + 4`. -/
theorem C6_tick_atomicity (bits : Int → RGBQUAD) (m_captureRegion : RECT) (sampleY : Int)
    (st : ScanState)
    (h : (IsVerticalBarSequence bits m_captureRegion st.x sampleY).1 = true) :
    (scanBody bits m_captureRegion sampleY st).totalPixels = st.totalPixels + 4 ∧
      ((scanBody bits m_captureRegion sampleY st).filledPixels = st.filledPixels ∨
        (scanBody bits m_captureRegion sampleY st).filledPixels = st.filledPixels + 4) ∧
      (scanBody bits m_captureRegion sampleY st).x = st.x + 4 := by
  obtain ⟨e1, e2, e3⟩ := scanBody_tick bits m_captureRegion sampleY st h
  refine ⟨e2, ?_, e1⟩
  rw [e3]
  split_ifs
  · exact Or.inr rfl
  · exact Or.inl rfl

/-- C6 at column 5 of the 9-column scenario, where the tick run starts. -/
theorem C6_tick_atomicity_witness :
    (IsVerticalBarSequence scenarioBits9 scenarioRegion9 5 1).1 = true ∧
      (scanBody scenarioBits9 scenarioRegion9 1 ⟨5, 5, 5, []⟩).totalPixels = 5 + 4 ∧
      (scanBody scenarioBits9 scenarioRegion9 1 ⟨5, 5, 5, []⟩).x = 5 + 4 :=
  ⟨by decide,
    (C6_tick_atomicity scenarioBits9 scenarioRegion9 1 ⟨5, 5, 5, []⟩ (by decide)).1,
    (C6_tick_atomicity scenarioBits9 scenarioRegion9 1 ⟨5, 5, 5, []⟩ (by decide)).2.2⟩

/-- C7: `IsVerticalBarSequence(x, y)` is true exactly when `x + 3 < width` and
the four pixels at columns `x .. x+3` of row `y` pass `IsMarkerPixel`; it is
false when fewer than 4 columns remain from `x` to the right edge; and every
pixel it reads is at a column `c` of row `y` with `x ≤ c ≤ x + 3` and
`c < width`.  The pixel at column `c` of row `y` is the one the code addresses,
`pixelIndex y width c`; it is pixel `y * width + c` wherever that index is
below `2^29`. -/
theorem C7_tick_detection (bits : Int → RGBQUAD) (m_captureRegion : RECT) (x y : Int) :
    ((IsVerticalBarSequence bits m_captureRegion x y).1 = true ↔
      x + 3 < m_captureRegion.right - m_captureRegion.left ∧
        ∀ i : Int, 0 ≤ i → i < 4 →
          IsMarkerPixel
            (bits (pixelIndex y (m_captureRegion.right - m_captureRegion.left) (x + i))) = true) ∧
    (m_captureRegion.right - m_captureRegion.left - x < 4 →
      (IsVerticalBarSequence bits m_captureRegion x y).1 = false) ∧
    (∀ idx ∈ (IsVerticalBarSequence bits m_captureRegion x y).2,
      ∃ c, x ≤ c ∧ c ≤ x + 3 ∧ c < m_captureRegion.right - m_captureRegion.left ∧
        idx = pixelIndex y (m_captureRegion.right - m_captureRegion.left) c) ∧
    (0 ≤ y * (m_captureRegion.right - m_captureRegion.left) →
      ∀ c : Int, 0 ≤ c →
        y * (m_captureRegion.right - m_captureRegion.left) + c < 536870912 →
        pixelIndex y (m_captureRegion.right - m_captureRegion.left) c =
          y * (m_captureRegion.right - m_captureRegion.left) + c) := by
  refine ⟨?_, ?_, ?_, fun h0 c hc h => pixelIndex_of_small _ _ c h0 hc h⟩
  · rw [IsVerticalBarSequence_eq_true_iff]
    constructor
    · rintro ⟨hw, h0, h1, h2, h3⟩
      refine ⟨hw, fun i hi0 hi4 => ?_⟩
      have hi : i = 0 ∨ i = 1 ∨ i = 2 ∨ i = 3 := by omega
      rcases hi with rfl | rfl | rfl | rfl
      · simpa using h0
      · exact h1
      · exact h2
      · exact h3
    · rintro ⟨hw, h⟩
      exact ⟨hw, by simpa using h 0 (by decide) (by decide), h 1 (by decide) (by decide),
        h 2 (by decide) (by decide), h 3 (by decide) (by decide)⟩
  · intro hlt
    refine Bool.eq_false_iff.2 fun h => ?_
    have := ((IsVerticalBarSequence_eq_true_iff bits m_captureRegion x y).1 h).1
    omega
  · intro idx hidx
    obtain ⟨c, hc1, hc2, hc3, hc4⟩ :=
      IsVerticalBarSequenceLoop_reads bits m_captureRegion x y 4 0 idx hidx
    exact ⟨c, by omega, by omega, hc3, hc4⟩

/-- C7 on the 9-column scenario: a run is detected at column 5 and none at
column 6, where only 3 columns remain. -/
theorem C7_tick_detection_witness :
    (IsVerticalBarSequence scenarioBits9 scenarioRegion9 5 1).1 = true ∧
      (IsVerticalBarSequence scenarioBits9 scenarioRegion9 6 1).1 = false :=
  ⟨(C7_tick_detection scenarioBits9 scenarioRegion9 5 1).1.2
      ⟨by decide, fun i h0 h4 => by
        have hi : i = 0 ∨ i = 1 ∨ i = 2 ∨ i = 3 := by omega
        rcases hi with rfl | rfl | rfl | rfl <;> decide⟩,
    (C7_tick_detection scenarioBits9 scenarioRegion9 6 1).2.1 (by decide)⟩

/-- C8: at a scan step whose column `x` starts a detected tick run, the run is
credited (`filledPixels` goes up by 4) exactly when the pixels at `x - 1`
(with `x > 0`) and at `x + 4` (with `x + 4 < width`) are both Filled, or one
of the pixels `x .. x+3` passes `IsFilledMarkerPixel`; otherwise
`filledPixels` is unchanged.  For a run at column 0, or with `x + 4` outside
the region, it is credited exactly when one of its pixels is a FilledMarker. -/
theorem C8_tick_fill_decision (bits : Int → RGBQUAD) (m_captureRegion : RECT)
    (sampleY : Int) (st : ScanState)
    (h : (IsVerticalBarSequence bits m_captureRegion st.x sampleY).1 = true) :
    ((scanBody bits m_captureRegion sampleY st).filledPixels = st.filledPixels + 4 ↔
      (0 < st.x ∧
        IsFilledPixel (bits (pixelIndex sampleY (m_captureRegion.right - m_captureRegion.left)
            (st.x - 1))) = true ∧
        st.x + 4 < m_captureRegion.right - m_captureRegion.left ∧
        IsFilledPixel (bits (pixelIndex sampleY (m_captureRegion.right - m_captureRegion.left)
            (st.x + 4))) = true) ∨
      ∃ i : Int, 0 ≤ i ∧ i < 4 ∧
        IsFilledMarkerPixel (bits (pixelIndex sampleY
            (m_captureRegion.right - m_captureRegion.left) (st.x + i))) = true) ∧
    ((scanBody bits m_captureRegion sampleY st).filledPixels ≠ st.filledPixels + 4 →
      (scanBody bits m_captureRegion sampleY st).filledPixels = st.filledPixels) ∧
    (st.x = 0 ∨ m_captureRegion.right - m_captureRegion.left ≤ st.x + 4 →
      ((scanBody bits m_captureRegion sampleY st).filledPixels = st.filledPixels + 4 ↔
        ∃ i : Int, 0 ≤ i ∧ i < 4 ∧
          IsFilledMarkerPixel (bits (pixelIndex sampleY
              (m_captureRegion.right - m_captureRegion.left) (st.x + i))) = true)) := by
  obtain ⟨hyes, hno⟩ := scanBody_tick_filled bits m_captureRegion sampleY st h
  have hmain : (scanBody bits m_captureRegion sampleY st).filledPixels = st.filledPixels + 4 ↔
      tickCredited bits m_captureRegion sampleY st.x := by
    constructor
    · intro heq
      by_contra hn
      have := hno hn
      omega
    · exact hyes
  refine ⟨hmain, ?_, ?_⟩
  · intro hne
    exact hno fun hc => hne (hyes hc)
  · intro hedge
    rw [hmain]
    constructor
    · rintro (⟨h1, -, h3, -⟩ | hr)
      · omega
      · exact hr
    · exact Or.inr

/-- C8 on a 4-column run of filled marker pixels at column 0: the run has no
left and no right neighbour and is credited through its own pixels. -/
theorem C8_tick_fill_decision_witness :
    (IsVerticalBarSequence filledMarkerBits ⟨0, 0, 4, 1⟩ 0 0).1 = true ∧
      (scanBody filledMarkerBits ⟨0, 0, 4, 1⟩ 0 ⟨0, 0, 0, []⟩).filledPixels = 0 + 4 :=
  ⟨by decide,
    ((C8_tick_fill_decision filledMarkerBits ⟨0, 0, 4, 1⟩ 0 ⟨0, 0, 0, []⟩ (by decide)).2.2
      (Or.inl rfl)).2 ⟨0, by decide, by decide, by decide⟩⟩

/-- C9: a scanline whose columns 0-4 are Filled and whose columns 5-8 are
Marker pixels that are not FilledMarker, 9 columns wide or 10 columns wide
with column 9 Unknown: the scan ends with `filledPixels = 5` and
`totalPixels = 9`, and `AnalyzeRegion` returns the `float` nearest to 500/9,
which is 3640889/65536 (55.5555573), less than 2/1000000 away from it. -/
theorem C9_spec_scenario (s : CaptureSystem) (bits : Int → RGBQUAD)
    (hb : s.m_bitmapData = some bits)
    (hh : 0 < s.m_captureRegion.bottom - s.m_captureRegion.top)
    (hwidth : s.m_captureRegion.right - s.m_captureRegion.left = 9 ∨
      (s.m_captureRegion.right - s.m_captureRegion.left = 10 ∧
        IsUnknownPixel (bits (pixelIndex ((s.m_captureRegion.bottom - s.m_captureRegion.top) / 2)
            (s.m_captureRegion.right - s.m_captureRegion.left) 9)) = true))
    (hfilled : ∀ x : Int, 0 ≤ x → x < 5 →
      IsFilledPixel (bits (pixelIndex ((s.m_captureRegion.bottom - s.m_captureRegion.top) / 2)
          (s.m_captureRegion.right - s.m_captureRegion.left) x)) = true)
    (hmarker : ∀ x : Int, 5 ≤ x → x < 9 →
      IsMarkerPixel (bits (pixelIndex ((s.m_captureRegion.bottom - s.m_captureRegion.top) / 2)
          (s.m_captureRegion.right - s.m_captureRegion.left) x)) = true ∧
      IsFilledMarkerPixel (bits (pixelIndex
          ((s.m_captureRegion.bottom - s.m_captureRegion.top) / 2)
              (s.m_captureRegion.right - s.m_captureRegion.left) x)) = false) :
    ∃ st, scan bits s.m_captureRegion = some st ∧ st.filledPixels = 5 ∧
      st.totalPixels = 9 ∧
      AnalyzeRegion s = some { result := 3640889 / 65536, reads := st.reads } ∧
      (3640889 / 65536 : ℚ) = roundFloat (500 / 9) ∧
      |(3640889 / 65536 : ℚ) - 500 / 9| < 2 / 1000000 := by
  have hw : 0 < s.m_captureRegion.right - s.m_captureRegion.left := by omega
  obtain ⟨st, hs, hP, hx⟩ := scan_invariant bits s.m_captureRegion
    (fun st => (0 ≤ st.x ∧ st.x ≤ 5 ∧ st.filledPixels = st.x ∧ st.totalPixels = st.x) ∨
      (9 ≤ st.x ∧ st.filledPixels = 5 ∧ st.totalPixels = 9))
    (Or.inl ⟨le_refl _, by decide, rfl, rfl⟩)
    (fun st hx hP => by
      rw [tdiv_two_eq _ hh]
      rcases hP with ⟨h0, h5, hf, ht⟩ | ⟨h9, hf, ht⟩
      · by_cases hlt : st.x < 5
        · obtain ⟨e1, e2, e3⟩ := scanBody_filled bits s.m_captureRegion _ st
            (hfilled st.x h0 hlt)
          rw [e1, e2, e3]
          exact Or.inl ⟨by omega, by omega, by omega, by omega⟩
        · have hx5 : st.x = 5 := by omega
          have hbar : (IsVerticalBarSequence bits s.m_captureRegion st.x
              ((s.m_captureRegion.bottom - s.m_captureRegion.top) / 2)).1 = true := by
            rw [IsVerticalBarSequence_eq_true_iff, hx5]
            exact ⟨by omega, (hmarker 5 (by decide) (by decide)).1,
              (hmarker 6 (by decide) (by decide)).1, (hmarker 7 (by decide) (by decide)).1,
              (hmarker 8 (by decide) (by decide)).1⟩
          obtain ⟨e1, e2, -⟩ := scanBody_tick bits s.m_captureRegion _ st hbar
          have hnot : ¬ tickCredited bits s.m_captureRegion
              ((s.m_captureRegion.bottom - s.m_captureRegion.top) / 2) st.x := by
            rw [hx5]
            rintro (⟨-, -, h9lt, h9⟩ | ⟨i, hi0, hi4, hi⟩)
            · rcases hwidth with h9' | ⟨_, hu⟩
              · omega
              · rw [show (5 : Int) + 4 = 9 by rfl, IsUnknownPixel_not_filled hu] at h9
                exact Bool.false_ne_true h9
            · rw [(hmarker (5 + i) (by omega) (by omega)).2] at hi
              exact Bool.false_ne_true hi
          have e3 := (scanBody_tick_filled bits s.m_captureRegion _ st hbar).2 hnot
          rw [e1, e2, e3]
          exact Or.inr ⟨by omega, by omega, by omega⟩
      · have hx9 : st.x = 9 := by omega
        have hw10 : s.m_captureRegion.right - s.m_captureRegion.left = 10 := by omega
        have hu : IsUnknownPixel (bits (pixelIndex
            ((s.m_captureRegion.bottom - s.m_captureRegion.top) / 2)
                (s.m_captureRegion.right - s.m_captureRegion.left) st.x)) = true := by
          rcases hwidth with h9' | ⟨_, hu⟩
          · omega
          · rw [hx9]; exact hu
        obtain ⟨e1, e2, e3⟩ := scanBody_unknown bits s.m_captureRegion _ st hu
        rw [e1, e2, e3]
        exact Or.inr ⟨by omega, hf, ht⟩)
  have hfin : st.filledPixels = 5 ∧ st.totalPixels = 9 := by
    rcases hP with ⟨_, h5, _, _⟩ | ⟨_, hf, ht⟩
    · omega
    · exact ⟨hf, ht⟩
  refine ⟨st, hs, hfin.1, hfin.2, ?_, ?_, ?_⟩
  · rw [AnalyzeRegion_of_scan s bits st hb hw hh hs, hfin.1, hfin.2, if_pos (by decide),
      floatPercentage_5_9]
  · rw [← floatPercentage_5_9,
      floatPercentage_single_rounding (by decide) (by decide) (by decide) (by norm_num)]
    norm_num
  · rw [abs_lt]
    constructor <;> norm_num

/-- C9 on `scenarioBits9` (9 columns) and on `scenarioBits10` (10 columns,
column 9 Unknown). -/
theorem C9_spec_scenario_witness :
    (∃ st, scan scenarioBits9 (sessionOf scenarioRegion9 scenarioBits9).m_captureRegion =
        some st ∧
      st.filledPixels = 5 ∧ st.totalPixels = 9 ∧
      AnalyzeRegion (sessionOf scenarioRegion9 scenarioBits9) =
        some { result := 3640889 / 65536, reads := st.reads }) ∧
    (∃ st, scan scenarioBits10 (sessionOf scenarioRegion10 scenarioBits10).m_captureRegion =
        some st ∧
      st.filledPixels = 5 ∧ st.totalPixels = 9 ∧
      AnalyzeRegion (sessionOf scenarioRegion10 scenarioBits10) =
        some { result := 3640889 / 65536, reads := st.reads }) := by
  obtain ⟨st9, a1, a2, a3, a4, -⟩ :=
    C9_spec_scenario (sessionOf scenarioRegion9 scenarioBits9) scenarioBits9 rfl (by decide)
      (Or.inl (by decide))
      (fun x h0 h5 => by
        have hx : x = 0 ∨ x = 1 ∨ x = 2 ∨ x = 3 ∨ x = 4 := by omega
        rcases hx with rfl | rfl | rfl | rfl | rfl <;> decide)
      (fun x h5 h9 => by
        have hx : x = 5 ∨ x = 6 ∨ x = 7 ∨ x = 8 := by omega
        rcases hx with rfl | rfl | rfl | rfl <;> decide)
  obtain ⟨st10, b1, b2, b3, b4, -⟩ :=
    C9_spec_scenario (sessionOf scenarioRegion10 scenarioBits10) scenarioBits10 rfl (by decide)
      (Or.inr ⟨by decide, by decide⟩)
      (fun x h0 h5 => by
        have hx : x = 0 ∨ x = 1 ∨ x = 2 ∨ x = 3 ∨ x = 4 := by omega
        rcases hx with rfl | rfl | rfl | rfl | rfl <;> decide)
      (fun x h5 h9 => by
        have hx : x = 5 ∨ x = 6 ∨ x = 7 ∨ x = 8 := by omega
        rcases hx with rfl | rfl | rfl | rfl <;> decide)
  exact ⟨⟨st9, a1, a2, a3, a4⟩, ⟨st10, b1, b2, b3, b4⟩⟩

/-- C10: `StartCapture` on a session that is already capturing returns `false`
and leaves every field of the session as it was, whatever region is passed. -/
theorem C10_start_while_running_rejected (env : Win32) (s : CaptureSystem) (region : RECT)
    (h : s.m_isCapturing = true) :
    StartCapture env s region = (false, s) := by
  simp [StartCapture, h]

/-- C10 on a capturing session: a second `StartCapture` with another region. -/
theorem C10_start_while_running_rejected_witness :
    (sessionOf scenarioRegion9 scenarioBits9).m_isCapturing = true ∧
      StartCapture envOk (sessionOf scenarioRegion9 scenarioBits9) ⟨1, 2, 30, 40⟩ =
        (false, sessionOf scenarioRegion9 scenarioBits9) :=
  ⟨rfl, C10_start_while_running_rejected envOk (sessionOf scenarioRegion9 scenarioBits9)
    ⟨1, 2, 30, 40⟩ rfl⟩

/-- C11: the code at the failing input.  On an idle session, with a
`CreateDIBSection` that accepts a positive `biWidth` and a non-zero `biHeight`,
the region `(0, 10, 100, 0)`, of width 100 and height -10, makes `StartCapture`
ask for a bitmap of `biHeight = 10` (bottom-up, where line 66 means top-down),
return `true`, set `m_isCapturing` and create the capture thread. -/
theorem C11_negative_height_starts_capture :
    idleSession.m_isCapturing = false ∧
      ((0 : Int) - 10 ≤ 0) ∧
      -((0 : Int) - 10) = 10 ∧
      (StartCapture envDib idleSession ⟨0, 10, 100, 0⟩).1 = true ∧
      (StartCapture envDib idleSession ⟨0, 10, 100, 0⟩).2.m_isCapturing = true ∧
      (StartCapture envDib idleSession ⟨0, 10, 100, 0⟩).2.m_captureThread =
        some envDib.newThread := by
  refine ⟨rfl, by decide, by decide, ?_, ?_, ?_⟩ <;> decide

/-- C12, as stated, fails: `ProcessFrame` with a failed `BitBlt` posts one
`WM_USER_XP_UPDATE` message, and the capture loop over three failing ticks and
a successful one posts four messages, not one. -/
theorem C12_counterexample :
    (∃ r, ProcessFrame (sessionOf scenarioRegion9 scenarioBits9) tickFail.capture = some r ∧
      r.2.2.length = 1 ∧ ∀ m ∈ r.2.2, m.msg = WM_USER_XP_UPDATE) ∧
    (∃ st, CaptureThread 0 [tickFail, tickFail, tickFail, tickOk]
        (sessionOf scenarioRegion9 scenarioBits9) = some st ∧
      st.posted.length = 4 ∧ ∀ m ∈ st.posted, m.msg = WM_USER_XP_UPDATE) := by
  constructor
  · obtain ⟨a, -, hp⟩ :=
      ProcessFrame_posts (sessionOf scenarioRegion9 scenarioBits9) tickFail.capture
    exact ⟨_, hp, rfl, fun m hm => by
      simp only [List.mem_singleton] at hm
      rw [hm]⟩
  · obtain ⟨st, h1, h2, h3, -⟩ := CaptureThread_spec 0
      [tickFail, tickFail, tickFail, tickOk] (sessionOf scenarioRegion9 scenarioBits9)
    exact ⟨st, h1, h2, h3⟩

/-- C12, amended: `ProcessFrame` does not inspect what `BitBlt` reports.  On
every tick it analyses the buffer (left as it was when the capture failed) and
posts exactly one `WM_USER_XP_UPDATE` message with the result; the capture loop
posts one message per iteration, whatever the captures did, and a failed
capture does not end it. -/
theorem C12_every_tick_delivers (s : CaptureSystem) (capture : Option (Int → RGBQUAD))
    (t0 : ℚ) (ticks : List Tick) :
    (∃ a, AnalyzeRegion { s with m_bitmapData := BitBlt s.m_bitmapData capture } = some a ∧
      ProcessFrame s capture = some (a.result,
        { s with m_bitmapData := BitBlt s.m_bitmapData capture },
        [{ hwnd := s.m_overlayWindow, msg := WM_USER_XP_UPDATE, wParam := 0,
           lParam := a.result }])) ∧
    (∃ a, AnalyzeRegion s = some a ∧
      ProcessFrame s none = some (a.result, s,
        [{ hwnd := s.m_overlayWindow, msg := WM_USER_XP_UPDATE, wParam := 0,
           lParam := a.result }])) ∧
    (∃ st, CaptureThread t0 ticks s = some st ∧
      st.posted.length = loopIterations ticks s.m_isCapturing ∧
      (∀ m ∈ st.posted, m.msg = WM_USER_XP_UPDATE) ∧
      (s.m_isCapturing = true → (∀ t ∈ ticks, t.stopped = false) →
        st.posted.length = ticks.length)) := by
  refine ⟨ProcessFrame_posts s capture, ?_, ?_⟩
  · obtain ⟨a, ha, hp⟩ := ProcessFrame_posts s none
    rw [BitBlt_failed] at ha hp
    exact ⟨a, ha, hp⟩
  · obtain ⟨st, h1, h2, h3, -⟩ := CaptureThread_spec t0 ticks s
    refine ⟨st, h1, h2, h3, fun hc hns => ?_⟩
    rw [h2, hc, loopIterations_never_stopped ticks hns]

/-- C12 amended, on three failing ticks followed by a successful one. -/
theorem C12_every_tick_delivers_witness :
    ∃ st, CaptureThread 0 [tickFail, tickFail, tickFail, tickOk]
        (sessionOf scenarioRegion9 scenarioBits9) = some st ∧
      st.posted.length = [tickFail, tickFail, tickFail, tickOk].length := by
  obtain ⟨st, h1, -, -, h4⟩ := (C12_every_tick_delivers
    (sessionOf scenarioRegion9 scenarioBits9) none 0
    [tickFail, tickFail, tickFail, tickOk]).2.2
  exact ⟨st, h1, h4 rfl (fun t ht => by
    simp only [List.mem_cons, List.mem_singleton, List.not_mem_nil, or_false] at ht
    rcases ht with rfl | rfl | rfl | rfl <;> rfl)⟩

/-- C13: `FRAME_DURATION` is 250 ms; the capture loop always returns from its
iterations, and the deadline it sleeps until after its `k`-th frame is
`t0 + k * 250`, the previous deadline plus the period; the deadlines are the
same for any other run with the same stop requests, whatever the processing
times, the oversleeps and the captures were. -/
theorem C13_cadence (t0 : ℚ) (ticks : List Tick) (s : CaptureSystem) :
    FRAME_DURATION = 250 ∧ FRAME_DURATION = Int.tdiv 1000 4 ∧
    ∃ st, CaptureThread t0 ticks s = some st ∧
      st.deadlines.length = loopIterations ticks s.m_isCapturing ∧
      (s.m_isCapturing = true → (∀ t ∈ ticks, t.stopped = false) →
        st.deadlines.length = ticks.length) ∧
      (∀ k : Nat, 1 ≤ k → k ≤ st.deadlines.length →
        st.deadlines[k - 1]? = some (t0 + (k : ℚ) * 250)) ∧
      (∀ (k : Nat) (d d' : ℚ), st.deadlines[k]? = some d → st.deadlines[k + 1]? = some d' →
        d' = d + (FRAME_DURATION : ℚ)) ∧
      (∀ ticks' : List Tick,
        ticks'.map (fun t => t.stopped) = ticks.map (fun t => t.stopped) →
        ∃ st', CaptureThread t0 ticks' s = some st' ∧ st'.deadlines = st.deadlines) := by
  refine ⟨FRAME_DURATION_eq, rfl, ?_⟩
  obtain ⟨st, h1, -, -, h4⟩ := CaptureThread_spec t0 ticks s
  have hlen : st.deadlines.length = loopIterations ticks s.m_isCapturing := by
    rw [h4, List.length_map, List.length_range]
  have hget : ∀ j : Nat, j < st.deadlines.length →
      st.deadlines[j]? = some (t0 + ((j : ℚ) + 1) * 250) := by
    intro j hj
    rw [hlen] at hj
    rw [h4, List.getElem?_map, List.getElem?_range hj]
    rfl
  refine ⟨st, h1, hlen, fun hc hns => ?_, fun k hk1 hk => ?_, fun k d d' hd hd' => ?_,
    fun ticks' hst => ?_⟩
  · rw [hlen, hc, loopIterations_never_stopped ticks hns]
  · rw [hget (k - 1) (by omega)]
    congr 2
    have : ((k - 1 : Nat) : ℚ) = (k : ℚ) - 1 := by
      rw [Nat.cast_sub hk1]; simp
    rw [this]; ring
  · have hk1 : k + 1 < st.deadlines.length := by
      by_contra hcon
      rw [List.getElem?_eq_none (by omega)] at hd'
      exact Option.noConfusion hd'
    rw [hget k (by omega)] at hd
    rw [hget (k + 1) hk1] at hd'
    have e1 := Option.some.inj hd
    have e2 := Option.some.inj hd'
    rw [← e1, ← e2, FRAME_DURATION_eq]
    push_cast
    ring
  · obtain ⟨st', g1, -, -, g4⟩ := CaptureThread_spec t0 ticks' s
    exact ⟨st', g1, by rw [g4, h4, loopIterations_congr ticks ticks' _ hst]⟩

/-- C13 on a loop started at clock reading 7 whose frames take 3 ms, 3 ms and
400 ms: the deadlines are 257, 507 and 757. -/
theorem C13_cadence_witness :
    ∃ st, CaptureThread 7 [tickFail, tickFail, tickOk]
        (sessionOf scenarioRegion9 scenarioBits9) = some st ∧
      st.deadlines.length = [tickFail, tickFail, tickOk].length ∧
      st.deadlines[3 - 1]? = some (7 + ((3 : Nat) : ℚ) * 250) := by
  obtain ⟨st, h1, -, h3, h4, -⟩ := (C13_cadence 7 [tickFail, tickFail, tickOk]
    (sessionOf scenarioRegion9 scenarioBits9)).2.2
  have hlen := h3 rfl (fun t ht => by
    simp only [List.mem_cons, List.mem_singleton, List.not_mem_nil, or_false] at ht
    rcases ht with rfl | rfl | rfl <;> rfl)
  exact ⟨st, h1, hlen, h4 3 (by decide) (by rw [hlen]; decide)⟩

/-- C14: `StopCapture` on an idle session changes nothing; `StopCapture` always
leaves `m_isCapturing` false (touching no other field than the thread object it
joined), so a following `StartCapture` takes the path of an idle session and
succeeds whenever `CreateDIBSection` gives a bitmap.  `m_isCapturing` changes
only from false to true in a `StartCapture` that returns `true`, and from true
to false in `StopCapture`; the constructor sets it to false and
`ProcessFrame`, `Initialize` and `CleanupCaptureDC` leave it as it is. -/
theorem C14_lifecycle (env : Win32) (s : CaptureSystem) (region : RECT)
    (capture : Option (Int → RGBQUAD)) (getDC : Nat) (createCompatibleDC : Nat → Nat)
    (overlayWindow : Nat) :
    (s.m_isCapturing = false → StopCapture s = s) ∧
    (StopCapture s).m_isCapturing = false ∧
    ((StopCapture s).m_overlayWindow = s.m_overlayWindow ∧
      (StopCapture s).m_captureRegion = s.m_captureRegion ∧
      (StopCapture s).m_screenDC = s.m_screenDC ∧
      (StopCapture s).m_memoryDC = s.m_memoryDC ∧
      (StopCapture s).m_captureBitmap = s.m_captureBitmap ∧
      (StopCapture s).m_bitmapData = s.m_bitmapData) ∧
    ((env.CreateDIBSection s.m_memoryDC (region.right - region.left)
        (-(region.bottom - region.top))).1 ≠ 0 →
      (StartCapture env (StopCapture s) region).1 = true ∧
        (StartCapture env (StopCapture s) region).2.m_isCapturing = true) ∧
    ((StartCapture env s region).2.m_isCapturing ≠ s.m_isCapturing →
      s.m_isCapturing = false ∧ (StartCapture env s region).2.m_isCapturing = true ∧
        (StartCapture env s region).1 = true) ∧
    ((StartCapture env s region).1 = true →
      s.m_isCapturing = false ∧ (StartCapture env s region).2.m_isCapturing = true) ∧
    ((StopCapture s).m_isCapturing ≠ s.m_isCapturing →
      s.m_isCapturing = true ∧ (StopCapture s).m_isCapturing = false) ∧
    (∀ r, ProcessFrame s capture = some r → r.2.1.m_isCapturing = s.m_isCapturing) ∧
    (Initialize getDC createCompatibleDC s overlayWindow).2.m_isCapturing = s.m_isCapturing ∧
    (CleanupCaptureDC s).m_isCapturing = s.m_isCapturing ∧
    (CaptureSystem.construct region).m_isCapturing = false := by
  have hstop : (StopCapture s).m_isCapturing = false ∧
      (StopCapture s).m_overlayWindow = s.m_overlayWindow ∧
      (StopCapture s).m_captureRegion = s.m_captureRegion ∧
      (StopCapture s).m_screenDC = s.m_screenDC ∧
      (StopCapture s).m_memoryDC = s.m_memoryDC ∧
      (StopCapture s).m_captureBitmap = s.m_captureBitmap ∧
      (StopCapture s).m_bitmapData = s.m_bitmapData := by
    unfold StopCapture
    cases hc : s.m_isCapturing with
    | false => simp [hc]
    | true =>
      cases ht : s.m_captureThread with
      | none => simp [ht]
      | some t => cases hj : t.joinable <;> simp [ht, hj]
  have hstart := StartCapture_idle env s region
  refine ⟨?_, hstop.1, hstop.2, ?_, ?_, ?_, ?_, ?_, ?_, ?_, rfl⟩
  · intro hc
    simp [StopCapture, hc]
  · intro hd
    have h := (StartCapture_idle env (StopCapture s) region hstop.1).2
      (by rw [hstop.2.2.2.2.1]; exact hd)
    rw [h]
    exact ⟨rfl, rfl⟩
  · intro hne
    cases hc : s.m_isCapturing with
    | false =>
      by_cases hd : (env.CreateDIBSection s.m_memoryDC (region.right - region.left)
          (-(region.bottom - region.top))).1 = 0
      · rw [(hstart hc).1 hd, hc] at hne
        exact absurd rfl hne
      · rw [(hstart hc).2 hd]
        exact ⟨rfl, rfl, rfl⟩
    | true =>
      have : StartCapture env s region = (false, s) := by simp [StartCapture, hc]
      rw [this] at hne
      exact absurd rfl hne
  · intro hres
    cases hc : s.m_isCapturing with
    | false =>
      by_cases hd : (env.CreateDIBSection s.m_memoryDC (region.right - region.left)
          (-(region.bottom - region.top))).1 = 0
      · rw [(hstart hc).1 hd] at hres
        exact absurd hres Bool.false_ne_true
      · rw [(hstart hc).2 hd]
        exact ⟨rfl, rfl⟩
    | true =>
      have : StartCapture env s region = (false, s) := by simp [StartCapture, hc]
      rw [this] at hres
      exact absurd hres Bool.false_ne_true
  · intro hne
    rw [hstop.1] at hne
    cases hc : s.m_isCapturing with
    | false => rw [hc] at hne; exact absurd rfl hne
    | true => exact ⟨rfl, hstop.1⟩
  · intro r hr
    obtain ⟨a, -, hp⟩ := ProcessFrame_posts s capture
    rw [hp] at hr
    rw [← Option.some.inj hr]
  · unfold Initialize SetupCaptureDC
    simp only
    split_ifs <;> rfl
  · unfold CleanupCaptureDC
    simp only
    split_ifs <;> rfl

/-- C14 on a capturing session: after `StopCapture` it is idle, and the next
`StartCapture` succeeds. -/
theorem C14_lifecycle_witness :
    (sessionOf scenarioRegion9 scenarioBits9).m_isCapturing = true ∧
      (StopCapture (sessionOf scenarioRegion9 scenarioBits9)).m_isCapturing = false ∧
      (StartCapture envOk (StopCapture (sessionOf scenarioRegion9 scenarioBits9))
        ⟨1, 2, 30, 40⟩).1 = true ∧
      StopCapture idleSession = idleSession :=
  ⟨rfl,
    (C14_lifecycle envOk (sessionOf scenarioRegion9 scenarioBits9) ⟨1, 2, 30, 40⟩ none 1
      (fun _ => 2) 1).2.1,
    ((C14_lifecycle envOk (sessionOf scenarioRegion9 scenarioBits9) ⟨1, 2, 30, 40⟩ none 1
      (fun _ => 2) 1).2.2.2.1 (by decide)).1,
    (C14_lifecycle envOk idleSession ⟨1, 2, 30, 40⟩ none 1 (fun _ => 2) 1).1 rfl⟩

/-- C15: at a scan step whose column does not start a detected tick run (or
whose pixel is Unknown), the scan moves on by exactly 1 column; an Unknown
pixel leaves both counters unchanged, a Filled pixel adds 1 to both, and any
other bar pixel (in particular a Background pixel, or a marker pixel, regular
or filled) adds 1 to `totalPixels` and leaves `filledPixels` unchanged. -/
theorem C15_plain_column_scoring (bits : Int → RGBQUAD) (m_captureRegion : RECT)
    (sampleY : Int) (st : ScanState)
    (h : (IsVerticalBarSequence bits m_captureRegion st.x sampleY).1 = false ∨
      IsUnknownPixel (bits (pixelIndex sampleY
          (m_captureRegion.right - m_captureRegion.left) st.x)) = true) :
    (scanBody bits m_captureRegion sampleY st).x = st.x + 1 ∧
    (IsUnknownPixel (bits (pixelIndex sampleY
        (m_captureRegion.right - m_captureRegion.left) st.x)) = true →
      (scanBody bits m_captureRegion sampleY st).totalPixels = st.totalPixels ∧
        (scanBody bits m_captureRegion sampleY st).filledPixels = st.filledPixels) ∧
    (IsFilledPixel (bits (pixelIndex sampleY
        (m_captureRegion.right - m_captureRegion.left) st.x)) = true →
      (scanBody bits m_captureRegion sampleY st).totalPixels = st.totalPixels + 1 ∧
        (scanBody bits m_captureRegion sampleY st).filledPixels = st.filledPixels + 1) ∧
    (IsUnknownPixel (bits (pixelIndex sampleY
        (m_captureRegion.right - m_captureRegion.left) st.x)) = false →
      IsFilledPixel (bits (pixelIndex sampleY
          (m_captureRegion.right - m_captureRegion.left) st.x)) = false →
      (scanBody bits m_captureRegion sampleY st).totalPixels = st.totalPixels + 1 ∧
        (scanBody bits m_captureRegion sampleY st).filledPixels = st.filledPixels) ∧
    (IsBackgroundPixel (bits (pixelIndex sampleY
        (m_captureRegion.right - m_captureRegion.left) st.x)) = true ∨
      IsMarkerPixel (bits (pixelIndex sampleY
          (m_captureRegion.right - m_captureRegion.left) st.x)) = true →
      (scanBody bits m_captureRegion sampleY st).totalPixels = st.totalPixels + 1 ∧
        (scanBody bits m_captureRegion sampleY st).filledPixels = st.filledPixels) := by
  have hbar : IsUnknownPixel (bits (pixelIndex sampleY
      (m_captureRegion.right - m_captureRegion.left) st.x)) = false →
      (IsVerticalBarSequence bits m_captureRegion st.x sampleY).1 = false := by
    intro hu
    rcases h with h | h
    · exact h
    · rw [hu] at h; exact absurd h Bool.false_ne_true
  have hother : IsUnknownPixel (bits (pixelIndex sampleY
      (m_captureRegion.right - m_captureRegion.left) st.x)) = false →
      IsFilledPixel (bits (pixelIndex sampleY
          (m_captureRegion.right - m_captureRegion.left) st.x)) = false →
      (scanBody bits m_captureRegion sampleY st).totalPixels = st.totalPixels + 1 ∧
        (scanBody bits m_captureRegion sampleY st).filledPixels = st.filledPixels := by
    intro hu hf
    obtain ⟨-, e2, e3⟩ := scanBody_plain bits m_captureRegion sampleY st hu (hbar hu)
    exact ⟨e2, by simpa [hf] using e3⟩
  refine ⟨?_, ?_, ?_, hother, ?_⟩
  · cases hu : IsUnknownPixel (bits (pixelIndex sampleY
      (m_captureRegion.right - m_captureRegion.left) st.x))
    · exact (scanBody_plain bits m_captureRegion sampleY st hu (hbar hu)).1
    · exact (scanBody_unknown bits m_captureRegion sampleY st hu).1
  · intro hu
    exact (scanBody_unknown bits m_captureRegion sampleY st hu).2.symm
  · intro hf
    obtain ⟨-, e2, e3⟩ := scanBody_filled bits m_captureRegion sampleY st hf
    exact ⟨e2, e3⟩
  · rintro (hb | hm)
    · exact hother (IsUnknownPixel_eq_false_of_background hb) (IsBackgroundPixel_not_filled hb)
    · exact hother (IsUnknownPixel_eq_false_of_marker hm) (IsMarkerPixel_not_filled hm)

/-- C15 at column 6 of the 9-column scenario: a marker pixel with only 3
columns left, so no run is detected and it counts as one unfilled unit. -/
theorem C15_plain_column_scoring_witness :
    (IsVerticalBarSequence scenarioBits9 scenarioRegion9 6 1).1 = false ∧
      (scanBody scenarioBits9 scenarioRegion9 1 ⟨6, 5, 6, []⟩).x = 6 + 1 ∧
      (scanBody scenarioBits9 scenarioRegion9 1 ⟨6, 5, 6, []⟩).totalPixels = 6 + 1 ∧
      (scanBody scenarioBits9 scenarioRegion9 1 ⟨6, 5, 6, []⟩).filledPixels = 5 :=
  ⟨by decide,
    (C15_plain_column_scoring scenarioBits9 scenarioRegion9 1 ⟨6, 5, 6, []⟩
      (Or.inl (by decide))).1,
    ((C15_plain_column_scoring scenarioBits9 scenarioRegion9 1 ⟨6, 5, 6, []⟩
      (Or.inl (by decide))).2.2.2.2 (Or.inr (by decide))).1,
    ((C15_plain_column_scoring scenarioBits9 scenarioRegion9 1 ⟨6, 5, 6, []⟩
      (Or.inl (by decide))).2.2.2.2 (Or.inr (by decide))).2⟩

/-- C16: for a region of positive width and height the scan ends with
`totalPixels` equal to the number of columns `0 .. width-1` whose pixel on row
`height / 2` is not Unknown. -/
theorem C16_total_counts_bar_columns (bits : Int → RGBQUAD) (m_captureRegion : RECT)
    (hw : 0 < m_captureRegion.right - m_captureRegion.left)
    (hh : 0 < m_captureRegion.bottom - m_captureRegion.top) :
    ∃ st, scan bits m_captureRegion = some st ∧
      st.totalPixels = (barColumns bits m_captureRegion : Int) := by
  obtain ⟨st, hs, ⟨h0, h1, h2⟩, hx⟩ := scan_invariant bits m_captureRegion
    (fun st => 0 ≤ st.x ∧ st.x ≤ m_captureRegion.right - m_captureRegion.left ∧
      st.totalPixels = barColumnsBelow bits m_captureRegion
        (Int.tdiv (m_captureRegion.bottom - m_captureRegion.top) 2) st.x.toNat)
    ⟨le_refl _, hw.le, by simp [barColumnsBelow]⟩
    (fun st hx hP => scanBody_barColumns bits m_captureRegion _ st hx hP)
  refine ⟨st, hs, ?_⟩
  have hxe : st.x = m_captureRegion.right - m_captureRegion.left := by omega
  rw [h2, hxe, tdiv_two_eq _ hh]
  rfl

/-- C16 on the two scenario buffers: 9 bar columns in both (the tenth column
of the second is Unknown). -/
theorem C16_total_counts_bar_columns_witness :
    (∃ st, scan scenarioBits9 scenarioRegion9 = some st ∧
      st.totalPixels = (barColumns scenarioBits9 scenarioRegion9 : Int)) ∧
    barColumns scenarioBits9 scenarioRegion9 = 9 ∧
    (∃ st, scan scenarioBits10 scenarioRegion10 = some st ∧
      st.totalPixels = (barColumns scenarioBits10 scenarioRegion10 : Int)) ∧
    barColumns scenarioBits10 scenarioRegion10 = 9 :=
  ⟨C16_total_counts_bar_columns scenarioBits9 scenarioRegion9 (by decide) (by decide),
    by decide,
    C16_total_counts_bar_columns scenarioBits10 scenarioRegion10 (by decide) (by decide),
    by decide⟩

/-- C17: at most one of the four class tests Filled, Background, regular
Marker and FilledMarker passes for a pixel; `IsMarkerPixel` is the disjunction
of the regular-marker test and `IsFilledMarkerPixel`, so `IsFilledMarkerPixel`
implies it, and neither a Filled nor a Background pixel passes it.  Hence the
class found by trying the tests one after the other is the same for every
order of the same tests, and no pixel of a detected tick run is Filled. -/
theorem C17_windows_disjoint (p : RGBQUAD) :
    (∀ c1 c2 : PixelClass, c1.test p = true → c2.test p = true → c1 = c2) ∧
    IsMarkerPixel p = (isRegularMarker p || IsFilledMarkerPixel p) ∧
    (IsFilledMarkerPixel p = true → IsMarkerPixel p = true) ∧
    (IsFilledPixel p = true →
      IsBackgroundPixel p = false ∧ IsMarkerPixel p = false ∧
        IsFilledMarkerPixel p = false) ∧
    (IsBackgroundPixel p = true →
      IsMarkerPixel p = false ∧ IsFilledMarkerPixel p = false) ∧
    (∀ o1 o2 : List PixelClass, (∀ c, c ∈ o1 ↔ c ∈ o2) →
      classifyIn o1 p = classifyIn o2 p) ∧
    (∀ (bits : Int → RGBQUAD) (m_captureRegion : RECT) (x y : Int),
      (IsVerticalBarSequence bits m_captureRegion x y).1 = true →
      ∀ i : Int, 0 ≤ i → i < 4 →
        IsFilledPixel
          (bits (pixelIndex y (m_captureRegion.right - m_captureRegion.left)
              (x + i))) = false) := by
  refine ⟨PixelClass.test_unique p, IsMarkerPixel_eq_or p, IsFilledMarkerPixel_imp_marker,
    ?_, ?_, fun o1 o2 h => classifyIn_order_irrelevant o1 o2 p h, ?_⟩
  · intro hf
    have hm := IsFilledPixel_not_marker hf
    refine ⟨?_, hm, ?_⟩
    · exact Bool.eq_false_iff.2 fun hb => by
        rw [IsBackgroundPixel_not_filled hb] at hf; exact Bool.false_ne_true hf
    · exact Bool.eq_false_iff.2 fun hfm => by
        rw [IsFilledMarkerPixel_imp_marker hfm] at hm; exact Bool.false_ne_true hm.symm
  · intro hb
    exact ⟨IsBackgroundPixel_not_marker hb, IsBackgroundPixel_not_filledMarker hb⟩
  · intro bits rc x y hbar i hi0 hi4
    obtain ⟨-, h0, h1, h2, h3⟩ := (IsVerticalBarSequence_eq_true_iff bits rc x y).1 hbar
    have hi : i = 0 ∨ i = 1 ∨ i = 2 ∨ i = 3 := by omega
    rcases hi with rfl | rfl | rfl | rfl
    · exact IsMarkerPixel_not_filled (by simpa using h0)
    · exact IsMarkerPixel_not_filled h1
    · exact IsMarkerPixel_not_filled h2
    · exact IsMarkerPixel_not_filled h3

/-- C17 on the filled marker colour: it passes `IsFilledMarkerPixel`, hence
`IsMarkerPixel`, and two opposite orders of the tests classify it alike. -/
theorem C17_windows_disjoint_witness :
    IsFilledMarkerPixel pxFilledMarker = true ∧ IsMarkerPixel pxFilledMarker = true ∧
      classifyIn [PixelClass.Filled, PixelClass.Background, PixelClass.Marker,
          PixelClass.FilledMarker] pxFilledMarker =
        classifyIn [PixelClass.FilledMarker, PixelClass.Marker, PixelClass.Background,
          PixelClass.Filled] pxFilledMarker :=
  ⟨by decide, (C17_windows_disjoint pxFilledMarker).2.2.1 (by decide),
    (C17_windows_disjoint pxFilledMarker).2.2.2.2.2.1 _ _
      (fun c => by cases c <;> simp)⟩

/-- C18, as stated, fails: on the region of 4 columns and `2^28` rows the
sampled row is row `2^27`, the byte offset of its first pixel, `2^29 * 4`, does
not fit a 32-bit `int`, and the four pixels `AnalyzeRegion` reads are pixels
`-2^29 .. -2^29 + 3`, before the buffer. -/
theorem C18_counterexample :
    (0 : Int) < tallRegion.right - tallRegion.left ∧
    (0 : Int) < tallRegion.bottom - tallRegion.top ∧
    ∃ a, AnalyzeRegion (sessionOf tallRegion allBlackBits) = some a ∧
      a.reads = [-536870912, -536870911, -536870910, -536870909] ∧
      ∃ idx ∈ a.reads, idx < 0 := by
  have hs : scan allBlackBits tallRegion = some
      { x := 4, filledPixels := 0, totalPixels := 0,
        reads := [-536870912, -536870911, -536870910, -536870909] } := by
    decide
  have ha := AnalyzeRegion_of_scan (sessionOf tallRegion allBlackBits) allBlackBits _ rfl
    (by decide) (by decide) hs
  exact ⟨by decide, by decide, _, ha, rfl, -536870912, by simp, by decide⟩

/-- C18, amended: for a non-null buffer and a region of positive width and
height with at most `2^29` pixels (so that every byte offset fits a 32-bit
`int`), the scan loop exits within `width` iterations, and every pixel index
read by `AnalyzeRegion` is an index `i` with `0 ≤ i < width * height` on row
`height / 2` (`i = height / 2 * width + c` with `0 ≤ c < width`); the same
holds of every pixel `IsVerticalBarSequence(x, y)` reads, for `x ≥ 0` and a row
`0 ≤ y < height`. -/
theorem C18_scan_bounds (s : CaptureSystem) (bits : Int → RGBQUAD)
    (hb : s.m_bitmapData = some bits)
    (hw : 0 < s.m_captureRegion.right - s.m_captureRegion.left)
    (hh : 0 < s.m_captureRegion.bottom - s.m_captureRegion.top)
    (hsize : (s.m_captureRegion.right - s.m_captureRegion.left) *
      (s.m_captureRegion.bottom - s.m_captureRegion.top) ≤ 536870912) :
    (∃ st a,
      scanLoop bits s.m_captureRegion ((s.m_captureRegion.bottom - s.m_captureRegion.top) / 2)
          (s.m_captureRegion.right - s.m_captureRegion.left).toNat
          { x := 0, filledPixels := 0, totalPixels := 0, reads := [] } = some st ∧
        AnalyzeRegion s = some a ∧ a.reads = st.reads ∧
        ∀ idx ∈ a.reads,
          0 ≤ idx ∧
          idx < (s.m_captureRegion.right - s.m_captureRegion.left) *
            (s.m_captureRegion.bottom - s.m_captureRegion.top) ∧
          ∃ c : Int, 0 ≤ c ∧ c < s.m_captureRegion.right - s.m_captureRegion.left ∧
            idx = (s.m_captureRegion.bottom - s.m_captureRegion.top) / 2 *
              (s.m_captureRegion.right - s.m_captureRegion.left) + c) ∧
    (∀ x y : Int, 0 ≤ x → 0 ≤ y → y < s.m_captureRegion.bottom - s.m_captureRegion.top →
      ∀ idx ∈ (IsVerticalBarSequence bits s.m_captureRegion x y).2,
        0 ≤ idx ∧
        idx < (s.m_captureRegion.right - s.m_captureRegion.left) *
          (s.m_captureRegion.bottom - s.m_captureRegion.top) ∧
        ∃ c : Int, x ≤ c ∧ c ≤ x + 3 ∧ c < s.m_captureRegion.right - s.m_captureRegion.left ∧
          idx = y * (s.m_captureRegion.right - s.m_captureRegion.left) + c) := by
  constructor
  · obtain ⟨st, hs, ⟨h0, hreads⟩, -⟩ := scan_invariant bits s.m_captureRegion
      (fun st => 0 ≤ st.x ∧ ∀ idx ∈ st.reads, onRow s.m_captureRegion
        (Int.tdiv (s.m_captureRegion.bottom - s.m_captureRegion.top) 2) idx)
      ⟨le_refl _, fun idx h => by simp at h⟩
      (fun st hx hP => ⟨le_of_lt (lt_of_le_of_lt hP.1 (scanBody_x_gt bits _ _ st)),
        fun idx hidx =>
          (scanBody_reads bits s.m_captureRegion _ st hP.1 hx idx hidx).elim (hP.2 idx) id⟩)
    have hs' := hs
    simp only [scan] at hs'
    rw [tdiv_two_eq _ hh] at hs' hreads
    refine ⟨st, _, hs', AnalyzeRegion_of_scan s bits st hb hw hh hs, rfl, ?_⟩
    intro idx hidx
    have hrow := hreads idx hidx
    obtain ⟨hy0, hy1⟩ := sampleY_bounds _ hh
    exact onRow_bounds s.m_captureRegion _ idx hy0 hy1 hsize hrow
  · intro x y hx hy0 hy1 idx hidx
    obtain ⟨c, hc1, hc2, hc3, hc4⟩ :=
      IsVerticalBarSequenceLoop_reads bits s.m_captureRegion x y 4 0 idx hidx
    obtain ⟨b0, b1, c', hc0', hc1', hc2'⟩ :=
      onRow_bounds s.m_captureRegion y idx hy0 hy1 hsize ⟨c, by omega, hc3, hc4⟩
    have hcc : c' = c := by
      have hw0 : 0 ≤ s.m_captureRegion.right - s.m_captureRegion.left := hw.le
      have hyw := mul_nonneg hy0 hw0
      have h1 : (y + 1) * (s.m_captureRegion.right - s.m_captureRegion.left) ≤
          (s.m_captureRegion.bottom - s.m_captureRegion.top) *
            (s.m_captureRegion.right - s.m_captureRegion.left) :=
        mul_le_mul_of_nonneg_right (by omega) hw0
      have h2 : (y + 1) * (s.m_captureRegion.right - s.m_captureRegion.left) =
          y * (s.m_captureRegion.right - s.m_captureRegion.left) +
            (s.m_captureRegion.right - s.m_captureRegion.left) := by ring
      have h3 : (s.m_captureRegion.bottom - s.m_captureRegion.top) *
          (s.m_captureRegion.right - s.m_captureRegion.left) =
          (s.m_captureRegion.right - s.m_captureRegion.left) *
            (s.m_captureRegion.bottom - s.m_captureRegion.top) := by ring
      have hp := pixelIndex_of_small y (s.m_captureRegion.right - s.m_captureRegion.left) c
        hyw (by omega) (by omega)
      rw [hc4, hp] at hc2'
      omega
    exact ⟨b0, b1, c, by omega, by omega, hc3, by rw [hc2', hcc]⟩

/-- C18 amended, on the 10-column scenario: the reads of `AnalyzeRegion` are
indices of the 10 x 3 buffer on row 1. -/
theorem C18_scan_bounds_witness :
    ∃ a, AnalyzeRegion (sessionOf scenarioRegion10 scenarioBits10) = some a ∧
      ∀ idx ∈ a.reads, 0 ≤ idx ∧ idx < 10 * 3 ∧
        ∃ c : Int, 0 ≤ c ∧ c < 10 ∧ idx = 1 * 10 + c := by
  obtain ⟨st, a, -, h2, -, h4⟩ :=
    (C18_scan_bounds (sessionOf scenarioRegion10 scenarioBits10) scenarioBits10 rfl (by decide)
      (by decide) (by decide)).1
  exact ⟨a, h2, h4⟩

end POverlay
